import Mathlib

set_option maxHeartbeats 1000000

/-
Verification of the market-data processing pipeline
(netlify/functions/fetch-market-data.js process-market-data part and
netlify/functions/calculate-indicators.js).

Modelling conventions:
* JS numbers holding prices/volumes are idealised as exact reals (ℝ);
  epoch-millisecond timestamps are integers (ℤ).
* The `datetime` ISO-8601 string is represented by the millisecond value it
  encodes (`new Date(t).toISOString()` is injective in `t`, so equality of the
  model field coincides with equality of the string).
* A JS object field that is absent or `undefined` is `none` / the `Bool`
  default `false`; JSON serialisation does not distinguish the two for the
  optional candle fields used here.
-/

namespace MarketData

/-- Candle record of the pipeline.  `opn` models the JS field `open` (a Lean
keyword); `interpolated`, `outlierCorrected`, `originalTimestamp` and the
`n…` normalised fields model the optional fields that pipeline stages add. -/
structure Candle where
  timestamp : ℤ
  datetime : ℤ
  opn : ℝ
  high : ℝ
  low : ℝ
  close : ℝ
  volume : ℝ
  interpolated : Bool := false
  outlierCorrected : Bool := false
  originalTimestamp : Option ℤ := none
  nOpen : Option ℝ := none
  nHigh : Option ℝ := none
  nLow : Option ℝ := none
  nClose : Option ℝ := none
  nVolume : Option ℝ := none

instance : Inhabited Candle :=
  ⟨{ timestamp := 0, datetime := 0, opn := 0, high := 0, low := 0, close := 0, volume := 0 }⟩

/-- Consecutive differences of a list of integers:
`diffsOf [a, b, c] = [b - a, c - b]`. -/
def diffsOf : List ℤ → List ℤ
  | a :: b :: rest => (b - a) :: diffsOf (b :: rest)
  | _ => []

/-- The `differences` array of `getTimeframeFromData`: consecutive timestamp
deltas of at most the first 10 candles (`for (let i = 1; i < Math.min(data.length, 10); i++)`). -/
def tsDiffs (l : List Candle) : List ℤ :=
  diffsOf ((l.take 10).map (·.timestamp))

/-- The mode-finding loop of `getTimeframeFromData`: walks over the
differences, keeping a count map (`differenceCounts`), the running maximal
count (`maxCount`) and the current winner (`mostCommonDiff`). -/
def modeLoop : List ℤ → (ℤ → ℕ) → ℕ → ℤ → ℤ
  | [], _, _, best => best
  | d :: rest, counts, maxCount, best =>
    let c := counts d + 1
    let counts' := fun x => if x = d then c else counts x
    if maxCount < c then modeLoop rest counts' c d else modeLoop rest counts' maxCount best

/-- Model of `getTimeframeFromData`: `none` models the JS `null` returned for fewer
than 2 candles; otherwise the most common consecutive delta of the first
(at most) 10 candles, initial candidate `differences[0]`. -/
def getTimeframeFromData (data : List Candle) : Option ℤ :=
  if data.length < 2 then none
  else
    let differences := tsDiffs data
    some (modeLoop differences (fun _ => 0) 0 differences.headI)

/-- The per-candle mapping inside `alignTimestamps`: floor the timestamp to a
timeframe boundary (`Math.floor(timestamp / timeframe) * timeframe`, which is
`Int.fdiv` on integer inputs), recompute `datetime`, and record
`originalTimestamp` exactly when a shift occurred. -/
def alignCandle (tf : ℤ) (c : Candle) : Candle :=
  { c with
    timestamp := c.timestamp.fdiv tf * tf
    datetime := c.timestamp.fdiv tf * tf
    originalTimestamp :=
      if c.timestamp ≠ c.timestamp.fdiv tf * tf then some c.timestamp else none }

/-- Model of `alignTimestamps`.  The empty check mirrors `!data || data.length === 0`;
the `if (!timeframe)` pass-through covers both JS `null` (`none`) and the
falsy delta `0` (`some 0`). -/
def alignTimestamps (data : List Candle) : List Candle :=
  match data with
  | [] => []
  | _ =>
    match getTimeframeFromData data with
    | none => data
    | some tf => if tf = 0 then data else data.map (alignCandle tf)

/-- Ordering used by `.sort((a, b) => a.timestamp - b.timestamp)`. -/
def tsLE (a b : Candle) : Prop := a.timestamp ≤ b.timestamp

instance : DecidableRel tsLE := fun a b => inferInstanceAs (Decidable (a.timestamp ≤ b.timestamp))

instance : IsTotal Candle tsLE := ⟨fun a b => le_total a.timestamp b.timestamp⟩

instance : IsTrans Candle tsLE := ⟨fun _ _ _ h h' => le_trans h h'⟩

/-- Model of `[...data].sort((a, b) => a.timestamp - b.timestamp)`.  JS `Array.sort` is
a stable sort, and any two stable sorts by the same key agree, so insertion
sort is an exact model. -/
def sortByTimestamp (data : List Candle) : List Candle :=
  List.insertionSort tsLE data

/-- The `dataMap` object of `handleMissingValues`: assignment in list order,
so a later candle with the same timestamp overwrites an earlier one. -/
def dataMap (l : List Candle) : ℤ → Option Candle :=
  l.foldl (fun m c => fun k => if k = c.timestamp then some c else m k) (fun _ => none)

/-- The forward-filled candle synthesized for a missing timestamp. -/
def fillCandle (ts : ℤ) (lastValid : Candle) : Candle :=
  { timestamp := ts, datetime := ts, opn := lastValid.close, high := lastValid.close,
    low := lastValid.close, close := lastValid.close, volume := 0, interpolated := true }

/-- The `expectedTimestamps.forEach` loop of `handleMissingValues`: keep the
existing candle when the timestamp is present (updating `lastValidCandle`),
forward-fill from `lastValidCandle` when absent, and skip leading timestamps
with no prior valid candle. -/
def fillLoop (dm : ℤ → Option Candle) : List ℤ → Option Candle → List Candle
  | [], _ => []
  | ts :: rest, lastValid =>
    match dm ts with
    | some c => c :: fillLoop dm rest (some c)
    | none =>
      match lastValid with
      | some lv => fillCandle ts lv :: fillLoop dm rest (some lv)
      | none => fillLoop dm rest none

/-- Body of the `while (currentTimestamp <= endTimestamp)` loop of
`generateExpectedTimestamps`, with explicit fuel. -/
def genLoop (tf e : ℤ) : ℕ → ℤ → List ℤ
  | 0, _ => []
  | fuel + 1, current => if current ≤ e then current :: genLoop tf e fuel (current + tf) else []

/-- Model of `generateExpectedTimestamps`.  The fuel `(end - start).toNat + 1` bounds
the number of iterations at every reachable call: both callers only invoke it
with a strictly positive `timeframeMs` (detected from sorted data), for which
the JS loop runs at most `end - start + 1` times. -/
def generateExpectedTimestamps (startTimestamp endTimestamp timeframeMs : ℤ) : List ℤ :=
  genLoop timeframeMs endTimestamp ((endTimestamp - startTimestamp).toNat + 1) startTimestamp

/-- Model of `handleMissingValues`. -/
def handleMissingValues (data : List Candle) : List Candle :=
  match data with
  | [] => []
  | _ =>
    let sortedData := sortByTimestamp data
    match getTimeframeFromData sortedData with
    | none => sortedData
    | some tf =>
      if tf = 0 then sortedData
      else
        fillLoop (dataMap sortedData)
          (generateExpectedTimestamps sortedData.headI.timestamp
            (sortedData.getLastD default).timestamp tf)
          none

/-- Helper used to build concrete test sequences: a candle with the given
timestamp and inert price fields. -/
def mkC (t : ℤ) : Candle :=
  { timestamp := t, datetime := t, opn := 1, high := 2, low := 0, close := 1, volume := 1 }

example : getTimeframeFromData [mkC 0, mkC 10, mkC 20, mkC 25, mkC 35] = some 10 := by decide

example : (handleMissingValues [mkC 0, mkC 10, mkC 20, mkC 25, mkC 35]).map (·.timestamp)
    = [0, 10, 20, 30] := by decide

/-- A JS-falsy inferred timeframe, i.e. one for which `if (!timeframe)` makes
the dependent stages pass the input through: `null` or the delta `0`. -/
def tfFalsy (o : Option ℤ) : Prop := o = none ∨ o = some 0

/-- Sequence whose modal delta is 10, but whose aligned form has modal
delta 20: timestamps 5, 15, 25, 35, 50, 70, 95, 115. -/
def exAlign : List Candle := [mkC 5, mkC 15, mkC 25, mkC 35, mkC 50, mkC 70, mkC 95, mkC 115]

/-- Sequence with stable timeframe 10 whose candles all shift on alignment. -/
def exAlign2 : List Candle := [mkC 5, mkC 15, mkC 25]

/-- Already-aligned sequence with timeframe 10. -/
def exAligned : List Candle := [mkC 0, mkC 10, mkC 20]

theorem alignTimestamps_of_falsy (data : List Candle)
    (h : tfFalsy (getTimeframeFromData data)) : alignTimestamps data = data := by
  cases data with
  | nil => rfl
  | cons a l => rcases h with h | h <;> simp [alignTimestamps, h]

theorem alignTimestamps_of_some (data : List Candle) (tf : ℤ)
    (h : getTimeframeFromData data = some tf) (h0 : tf ≠ 0) :
    alignTimestamps data = data.map (alignCandle tf) := by
  cases data with
  | nil => simp [getTimeframeFromData] at h
  | cons a l => simp [alignTimestamps, h, h0]

/-- C2 counterexample: `alignTimestamps` is not idempotent.  First component:
on timestamps 5,15,25,35,50,70,95,115 the first pass infers timeframe 10 and
aligns to 0,10,20,30,50,70,90,110, from which the second pass infers
timeframe 20 and moves the timestamps again.  Second component: even when the
re-inferred timeframe is unchanged (timestamps 5,15,25), the second pass
resets every `originalTimestamp` marker the first pass set, so the records
differ. -/
theorem alignTimestamps_not_idempotent :
    alignTimestamps (alignTimestamps exAlign) ≠ alignTimestamps exAlign ∧
    (getTimeframeFromData (alignTimestamps exAlign2) = getTimeframeFromData exAlign2 ∧
      alignTimestamps (alignTimestamps exAlign2) ≠ alignTimestamps exAlign2) := by
  refine ⟨fun h => ?_, by decide, fun h => ?_⟩
  · have h' := congrArg (List.map (·.timestamp)) h
    revert h'
    decide
  · have h' := congrArg (List.map (·.originalTimestamp)) h
    revert h'
    decide

/-- C2 (amended): re-alignment is a no-op on the timestamps provided the
timeframe inferred from the aligned output equals the one inferred from the
input, or is undetectable/zero — and in the latter case the second pass
returns its input in full.  (The unconditional claim is false, see
`alignTimestamps_not_idempotent`.) -/
theorem alignTimestamps_idempotent_amended (x : List Candle)
    (h : getTimeframeFromData (alignTimestamps x) = getTimeframeFromData x ∨
      tfFalsy (getTimeframeFromData (alignTimestamps x))) :
    (alignTimestamps (alignTimestamps x)).map (·.timestamp)
      = (alignTimestamps x).map (·.timestamp) ∧
    (tfFalsy (getTimeframeFromData (alignTimestamps x)) →
      alignTimestamps (alignTimestamps x) = alignTimestamps x) := by
  have pass : tfFalsy (getTimeframeFromData (alignTimestamps x)) →
      alignTimestamps (alignTimestamps x) = alignTimestamps x :=
    fun hf => alignTimestamps_of_falsy _ hf
  refine ⟨?_, pass⟩
  by_cases hf : tfFalsy (getTimeframeFromData (alignTimestamps x))
  · rw [pass hf]
  · rcases h with h | h
    · rcases heq : getTimeframeFromData x with _ | t
      · exact absurd (by rw [h, heq]; exact Or.inl rfl) hf
      · by_cases h0 : t = 0
        · subst h0
          exact absurd (by rw [h, heq]; exact Or.inr rfl) hf
        · have hx : alignTimestamps x = x.map (alignCandle t) :=
            alignTimestamps_of_some x t heq h0
          have hy : alignTimestamps (alignTimestamps x)
              = (alignTimestamps x).map (alignCandle t) :=
            alignTimestamps_of_some _ t (by rw [h, heq]) h0
          rw [hy, List.map_map]
          apply List.map_congr_left
          intro c hc
          rw [hx] at hc
          rcases List.mem_map.1 hc with ⟨c0, _, rfl⟩
          simp [Function.comp, alignCandle, Int.mul_fdiv_cancel _ h0]
    · exact absurd h hf

/-- Witness for C2 (amended) on the already-aligned sequence 0, 10, 20. -/
theorem alignTimestamps_idempotent_amended_witness :
    (getTimeframeFromData (alignTimestamps exAligned) = getTimeframeFromData exAligned ∨
      tfFalsy (getTimeframeFromData (alignTimestamps exAligned))) ∧
    (alignTimestamps (alignTimestamps exAligned)).map (·.timestamp)
      = (alignTimestamps exAligned).map (·.timestamp) :=
  ⟨Or.inl (by decide), (alignTimestamps_idempotent_amended exAligned (Or.inl (by decide))).1⟩

theorem diffsOf_length : ∀ l : List ℤ, (diffsOf l).length = l.length - 1
  | [] => rfl
  | [_] => rfl
  | a :: b :: r => by
    have := diffsOf_length (b :: r)
    simp only [diffsOf, List.length_cons] at *
    omega

theorem tsDiffs_length (l : List Candle) : (tsDiffs l).length = min (l.length - 1) 9 := by
  simp only [tsDiffs, diffsOf_length, List.length_map, List.length_take]
  omega

/-- Loop invariant of the mode computation: with the counts, running maximum
and candidate describing an already `processed` prefix, the loop returns an
element of maximal count in the whole list. -/
theorem modeLoop_spec (rest : List ℤ) :
    ∀ (processed : List ℤ) (maxCount : ℕ) (best : ℤ),
      (∀ x, processed.count x ≤ maxCount) →
      (processed = [] → maxCount = 0) →
      (processed ≠ [] → best ∈ processed ∧ processed.count best = maxCount) →
      processed ++ rest ≠ [] →
      modeLoop rest (fun x => processed.count x) maxCount best ∈ processed ++ rest ∧
        ∀ x, (processed ++ rest).count x
          ≤ (processed ++ rest).count (modeLoop rest (fun x => processed.count x) maxCount best) := by
  induction rest with
  | nil =>
    intro processed maxCount best hle hemp hbest hne
    simp only [List.append_nil] at *
    rcases hbest hne with ⟨hmem, hcnt⟩
    exact ⟨by simpa [modeLoop] using hmem, fun x => by simpa [modeLoop, hcnt] using hle x⟩
  | cons d rest ih =>
    intro processed maxCount best hle hemp hbest hne
    have hcounts' : (fun x => if x = d then processed.count d + 1 else processed.count x)
        = fun x => (processed ++ [d]).count x := by
      funext x
      by_cases hx : x = d <;>
        simp [hx, List.count_append, List.count_cons, List.count_nil]
    have hassoc : (processed ++ [d]) ++ rest = processed ++ (d :: rest) := by
      simp
    have hunfold : modeLoop (d :: rest) (fun x => processed.count x) maxCount best =
        if maxCount < processed.count d + 1 then
          modeLoop rest (fun x => (processed ++ [d]).count x) (processed.count d + 1) d
        else
          modeLoop rest (fun x => (processed ++ [d]).count x) maxCount best := by
      simp only [modeLoop]
      rw [hcounts']
    by_cases hc : maxCount < processed.count d + 1
    · rw [hunfold, if_pos hc]
      have h := ih (processed ++ [d]) (processed.count d + 1) d
        (fun x => by
          rcases eq_or_ne d x with rfl | hne
          · simp [List.count_append]
          · have := hle x
            simp [List.count_append, List.count_cons, List.count_nil, hne, Ne.symm hne]
            omega)
        (by simp)
        (fun _ => ⟨by simp, by simp [List.count_append]⟩)
        (by simp)
      rw [hassoc] at h
      exact h
    · rw [hunfold, if_neg hc]
      have hpne : processed ≠ [] := by
        intro hp
        rw [hemp hp] at hc
        simp [hp] at hc
      rcases hbest hpne with ⟨hbmem, hbcnt⟩
      have hbd : best ≠ d := by
        intro hbd
        rw [hbd] at hbcnt
        omega
      have h := ih (processed ++ [d]) maxCount best
        (fun x => by
          rcases eq_or_ne d x with rfl | hne
          · have := hle d
            simp [List.count_append, List.count_cons, List.count_nil]
            omega
          · have := hle x
            simp [List.count_append, List.count_cons, List.count_nil, hne, Ne.symm hne]
            omega)
        (by simp)
        (fun _ => ⟨by simp [hbmem], by
          simp [List.count_append, List.count_cons, List.count_nil, hbd, Ne.symm hbd, hbcnt]⟩)
        (by simp)
      rw [hassoc] at h
      exact h

theorem getTimeframeFromData_eq_mode (data : List Candle) (h2 : 2 ≤ data.length) :
    ∃ tf, getTimeframeFromData data = some tf ∧ tf ∈ tsDiffs data ∧
      ∀ d, (tsDiffs data).count d ≤ (tsDiffs data).count tf := by
  have hne : tsDiffs data ≠ [] := by
    have := tsDiffs_length data
    intro h
    rw [h] at this
    simp at this
    omega
  have hzero : (fun _ => (0 : ℕ)) = fun x => ([] : List ℤ).count x := by
    funext x
    simp
  have h := modeLoop_spec (tsDiffs data) [] 0 (tsDiffs data).headI
    (fun x => by simp) (fun _ => rfl) (fun hf => absurd rfl hf) (by simpa using hne)
  rw [← hzero] at h
  simp only [List.nil_append] at h
  refine ⟨modeLoop (tsDiffs data) (fun _ => 0) 0 (tsDiffs data).headI, ?_, h.1, h.2⟩
  simp [getTimeframeFromData]
  omega

/-- C6: with at least two candles the inferred timeframe is a most frequent
value among the consecutive deltas of (at most) the first 10 candles; with
fewer it is the `null` sentinel and both `alignTimestamps` and
`handleMissingValues` return the input unchanged. -/
theorem getTimeframeFromData_mode (data : List Candle) :
    (2 ≤ data.length →
      ∃ tf, getTimeframeFromData data = some tf ∧ tf ∈ tsDiffs data ∧
        (tsDiffs data).length = min (data.length - 1) 9 ∧
        ∀ d ∈ tsDiffs data, (tsDiffs data).count d ≤ (tsDiffs data).count tf) ∧
    (data.length < 2 →
      getTimeframeFromData data = none ∧ alignTimestamps data = data ∧
        handleMissingValues data = data) := by
  constructor
  · intro h2
    rcases getTimeframeFromData_eq_mode data h2 with ⟨tf, heq, hmem, hcnt⟩
    exact ⟨tf, heq, hmem, tsDiffs_length data, fun d _ => hcnt d⟩
  · intro h2
    match data, h2 with
    | [], _ => exact ⟨rfl, rfl, rfl⟩
    | [a], _ =>
      refine ⟨by simp [getTimeframeFromData], by simp [alignTimestamps, getTimeframeFromData], ?_⟩
      simp [handleMissingValues, sortByTimestamp, List.insertionSort, List.orderedInsert,
        getTimeframeFromData]

/-- Witness for C6 at a five-candle sequence (timeframe 10) and a
one-candle sequence. -/
theorem getTimeframeFromData_mode_witness :
    (2 ≤ ([mkC 0, mkC 10, mkC 20, mkC 25, mkC 35] : List Candle).length ∧
      ∃ tf, getTimeframeFromData [mkC 0, mkC 10, mkC 20, mkC 25, mkC 35] = some tf ∧
        tf ∈ tsDiffs [mkC 0, mkC 10, mkC 20, mkC 25, mkC 35] ∧
        (tsDiffs [mkC 0, mkC 10, mkC 20, mkC 25, mkC 35]).length
          = min (([mkC 0, mkC 10, mkC 20, mkC 25, mkC 35] : List Candle).length - 1) 9 ∧
        ∀ d ∈ tsDiffs [mkC 0, mkC 10, mkC 20, mkC 25, mkC 35],
          (tsDiffs [mkC 0, mkC 10, mkC 20, mkC 25, mkC 35]).count d
            ≤ (tsDiffs [mkC 0, mkC 10, mkC 20, mkC 25, mkC 35]).count tf) ∧
    (([mkC 7] : List Candle).length < 2 ∧
      getTimeframeFromData [mkC 7] = none ∧ alignTimestamps [mkC 7] = [mkC 7] ∧
        handleMissingValues [mkC 7] = [mkC 7]) :=
  ⟨⟨by decide, (getTimeframeFromData_mode [mkC 0, mkC 10, mkC 20, mkC 25, mkC 35]).1 (by decide)⟩,
   ⟨by decide, (getTimeframeFromData_mode [mkC 7]).2 (by decide)⟩⟩

theorem genLoop_head (tf e : ℤ) (fuel : ℕ) (cur x : ℤ) (xs : List ℤ)
    (h : genLoop tf e fuel cur = x :: xs) : x = cur := by
  cases fuel with
  | zero => simp [genLoop] at h
  | succ n =>
    simp only [genLoop] at h
    split at h
    · injection h with h1 _
      exact h1.symm
    · cases h

theorem genLoop_chain (tf e : ℤ) :
    ∀ (fuel : ℕ) (cur : ℤ), List.Chain' (fun a b => b = a + tf) (genLoop tf e fuel cur) := by
  intro fuel
  induction fuel with
  | zero => intro cur; simp [genLoop]
  | succ n ih =>
    intro cur
    simp only [genLoop]
    split
    · rw [List.chain'_cons']
      refine ⟨?_, ih (cur + tf)⟩
      intro b hb
      rcases hh : genLoop tf e n (cur + tf) with _ | ⟨x, xs⟩ <;> rw [hh] at hb
      · simp at hb
      · simp only [List.head?_cons, Option.mem_some_iff] at hb
        rw [← hb]
        exact genLoop_head tf e n (cur + tf) x xs hh
    · simp

theorem genLoop_mem (tf e : ℤ) :
    ∀ (fuel : ℕ) (cur t : ℤ), t ∈ genLoop tf e fuel cur →
      t ≤ e ∧ ∃ k : ℕ, t = cur + k * tf := by
  intro fuel
  induction fuel with
  | zero => intro cur t h; simp [genLoop] at h
  | succ n ih =>
    intro cur t h
    simp only [genLoop] at h
    split at h
    · rename_i hcur
      rcases List.mem_cons.1 h with rfl | h
      · exact ⟨hcur, 0, by ring⟩
      · rcases ih (cur + tf) t h with ⟨hle, k, hk⟩
        refine ⟨hle, k + 1, ?_⟩
        rw [hk]
        push_cast
        ring
    · simp at h

theorem generateExpectedTimestamps_cons (s e tf : ℤ) (hs : s ≤ e) :
    generateExpectedTimestamps s e tf
      = s :: genLoop tf e (e - s).toNat (s + tf) := by
  simp only [generateExpectedTimestamps, genLoop, if_pos hs]

theorem dataMap_aux_sound :
    ∀ (l : List Candle) (m : ℤ → Option Candle) (ts : ℤ) (c : Candle),
      l.foldl (fun m c => fun k => if k = c.timestamp then some c else m k) m ts = some c →
      (c ∈ l ∧ c.timestamp = ts) ∨ m ts = some c := by
  intro l
  induction l with
  | nil => exact fun m ts c h => Or.inr h
  | cons a l ih =>
    intro m ts c h
    simp only [List.foldl_cons] at h
    rcases ih _ ts c h with ⟨hmem, hts⟩ | hm
    · exact Or.inl ⟨List.mem_cons_of_mem _ hmem, hts⟩
    · by_cases hts : ts = a.timestamp
      · rw [if_pos hts] at hm
        injection hm with hm
        subst hm
        exact Or.inl ⟨List.mem_cons_self _ _, hts.symm⟩
      · rw [if_neg hts] at hm
        exact Or.inr hm

theorem dataMap_sound (l : List Candle) (ts : ℤ) (c : Candle)
    (h : dataMap l ts = some c) : c ∈ l ∧ c.timestamp = ts := by
  rcases dataMap_aux_sound l (fun _ => none) ts c h with h' | h'
  · exact h'
  · cases h'

theorem dataMap_aux_isSome :
    ∀ (l : List Candle) (m : ℤ → Option Candle) (ts : ℤ),
      ((∃ c ∈ l, c.timestamp = ts) ∨ (m ts).isSome) →
      (l.foldl (fun m c => fun k => if k = c.timestamp then some c else m k) m ts).isSome := by
  intro l
  induction l with
  | nil =>
    intro m ts h
    rcases h with ⟨c, hc, _⟩ | h
    · simp at hc
    · exact h
  | cons a l ih =>
    intro m ts h
    simp only [List.foldl_cons]
    apply ih
    rcases h with ⟨c, hc, hts⟩ | h
    · rcases List.mem_cons.1 hc with rfl | hc
      · refine Or.inr ?_
        rw [if_pos hts.symm]
        rfl
      · exact Or.inl ⟨c, hc, hts⟩
    · refine Or.inr ?_
      split
      · rfl
      · exact h

theorem dataMap_isSome (l : List Candle) (ts : ℤ) (h : ∃ c ∈ l, c.timestamp = ts) :
    ∃ c, dataMap l ts = some c := by
  have := dataMap_aux_isSome l (fun _ => none) ts (Or.inl h)
  exact Option.isSome_iff_exists.1 this

/-- One link of the forward-fill invariant: a candle in the filled output is
either the data-map candle for its timestamp, or a synthesized candle copying
the previous output candle's close. -/
def fillRel (dm : ℤ → Option Candle) (a b : Candle) : Prop :=
  dm b.timestamp = some b ∨
    (dm b.timestamp = none ∧ b.opn = a.close ∧ b.high = a.close ∧ b.low = a.close ∧
      b.close = a.close ∧ b.volume = 0 ∧ b.interpolated = true)

theorem fillLoop_map_timestamp (dm : ℤ → Option Candle)
    (hdm : ∀ ts c, dm ts = some c → c.timestamp = ts) :
    ∀ (l : List ℤ) (v : Candle), (fillLoop dm l (some v)).map (·.timestamp) = l := by
  intro l
  induction l with
  | nil => intro v; rfl
  | cons ts rest ih =>
    intro v
    rcases h : dm ts with _ | c
    · simp [fillLoop, h, fillCandle, ih v]
    · simp [fillLoop, h, hdm ts c h, ih c]

theorem fillLoop_chain (dm : ℤ → Option Candle)
    (hdm : ∀ ts c, dm ts = some c → c.timestamp = ts) :
    ∀ (l : List ℤ) (v : Candle),
      List.Chain' (fillRel dm) (v :: fillLoop dm l (some v)) := by
  intro l
  induction l with
  | nil => intro v; simp [fillLoop]
  | cons ts rest ih =>
    intro v
    rcases h : dm ts with _ | c
    · have hstep : fillLoop dm (ts :: rest) (some v)
          = fillCandle ts v :: fillLoop dm rest (some v) := by
        simp [fillLoop, h]
      rw [hstep, List.chain'_cons]
      constructor
      · exact Or.inr ⟨by simpa [fillCandle] using h, rfl, rfl, rfl, rfl, rfl, rfl⟩
      · have hv := ih v
        rw [List.chain'_cons'] at hv ⊢
        refine ⟨?_, hv.2⟩
        intro b hb
        have hrel := hv.1 b hb
        rcases hrel with hp | ⟨h1, h2, h3, h4, h5, h6, h7⟩
        · exact Or.inl hp
        · exact Or.inr ⟨h1, h2, h3, h4, h5, h6, h7⟩
    · have hstep : fillLoop dm (ts :: rest) (some v) = c :: fillLoop dm rest (some c) := by
        simp [fillLoop, h]
      rw [hstep, List.chain'_cons]
      refine ⟨Or.inl ?_, ih c⟩
      rw [hdm ts c h]
      exact h

theorem tsLE_sorted (data : List Candle) : List.Sorted tsLE (sortByTimestamp data) :=
  List.sorted_insertionSort tsLE data

theorem sortByTimestamp_perm (data : List Candle) : (sortByTimestamp data).Perm data :=
  List.perm_insertionSort tsLE data

theorem getLastD_mem_of_ne_nil (l : List Candle) (hne : l ≠ []) : l.getLastD default ∈ l := by
  rw [List.getLastD_eq_getLast? default l, List.getLast?_eq_getLast_of_ne_nil hne,
    Option.getD_some]
  exact List.getLast_mem hne

theorem diffsOf_nonneg : ∀ il : List ℤ, il.Pairwise (· ≤ ·) → ∀ d ∈ diffsOf il, 0 ≤ d
  | [], _, d, hd => by simp [diffsOf] at hd
  | [_], _, d, hd => by simp [diffsOf] at hd
  | a :: b :: r, hp, d, hd => by
    simp only [diffsOf, List.mem_cons] at hd
    rcases hd with rfl | hd
    · have hab : a ≤ b := (List.pairwise_cons.1 hp).1 b (by simp)
      omega
    · exact diffsOf_nonneg (b :: r) (List.pairwise_cons.1 hp).2 d hd

theorem tsDiffs_nonneg_of_sorted (l : List Candle) (hs : List.Sorted tsLE l) :
    ∀ d ∈ tsDiffs l, 0 ≤ d := by
  apply diffsOf_nonneg
  rw [List.pairwise_map]
  exact (hs.sublist (List.take_sublist 10 l)).imp (fun h => h)

theorem getTimeframeFromData_some_length (l : List Candle) (tf : ℤ)
    (h : getTimeframeFromData l = some tf) : 2 ≤ l.length := by
  by_contra hlen
  rw [getTimeframeFromData, if_pos (by omega)] at h
  cases h

theorem timeframe_pos_of_sorted (data : List Candle) (tf : ℤ)
    (htf : getTimeframeFromData (sortByTimestamp data) = some tf) (h0 : tf ≠ 0) : 0 < tf := by
  obtain ⟨tf', heq, hmem, _⟩ :=
    getTimeframeFromData_eq_mode _ (getTimeframeFromData_some_length _ tf htf)
  rw [htf] at heq
  injection heq with heq
  subst heq
  have := tsDiffs_nonneg_of_sorted (sortByTimestamp data) (tsLE_sorted data) tf hmem
  omega

/-- Shape of `handleMissingValues` when a nonzero timeframe is detected. -/
theorem handleMissingValues_eq (data : List Candle) (tf : ℤ)
    (htf : getTimeframeFromData (sortByTimestamp data) = some tf) (h0 : tf ≠ 0) :
    handleMissingValues data
      = fillLoop (dataMap (sortByTimestamp data))
          (generateExpectedTimestamps (sortByTimestamp data).headI.timestamp
            ((sortByTimestamp data).getLastD default).timestamp tf)
          none := by
  cases data with
  | nil => simp [sortByTimestamp, List.insertionSort, getTimeframeFromData] at htf
  | cons a l => simp [handleMissingValues, htf, h0]

/-- Master characterisation of the filled output: its timestamps are exactly
the expected timestamps, consecutive candles satisfy the keep-or-fill
relation, and the first output candle is the data-map candle of the first
sorted timestamp. -/
theorem handleMissingValues_master (data : List Candle) (tf : ℤ)
    (htf : getTimeframeFromData (sortByTimestamp data) = some tf) (h0 : tf ≠ 0) :
    (handleMissingValues data).map (·.timestamp)
      = generateExpectedTimestamps (sortByTimestamp data).headI.timestamp
          ((sortByTimestamp data).getLastD default).timestamp tf ∧
    List.Chain' (fillRel (dataMap (sortByTimestamp data))) (handleMissingValues data) ∧
    handleMissingValues data ≠ [] ∧
    dataMap (sortByTimestamp data) ((handleMissingValues data).headI.timestamp)
      = some (handleMissingValues data).headI := by
  have hSne : sortByTimestamp data ≠ [] := by
    intro h
    rw [h] at htf
    simp [getTimeframeFromData] at htf
  have hdm : ∀ ts c, dataMap (sortByTimestamp data) ts = some c → c.timestamp = ts :=
    fun ts c h => (dataMap_sound _ _ _ h).2
  have hhead_mem : (sortByTimestamp data).headI ∈ sortByTimestamp data := by
    rcases hs : sortByTimestamp data with _ | ⟨a, rest⟩
    · exact absurd hs hSne
    · simp
  have hse : (sortByTimestamp data).headI.timestamp
      ≤ ((sortByTimestamp data).getLastD default).timestamp := by
    rcases hs : sortByTimestamp data with _ | ⟨a, rest⟩
    · exact absurd hs hSne
    · have hsorted := tsLE_sorted data
      rw [hs] at hsorted
      have hmem : (a :: rest).getLastD default ∈ a :: rest :=
        getLastD_mem_of_ne_nil _ (by simp)
      rcases List.mem_cons.1 hmem with heq | hmem
      · rw [heq]
        simp
      · simpa using List.rel_of_sorted_cons hsorted _ hmem
  obtain ⟨c₀, hc₀⟩ := dataMap_isSome (sortByTimestamp data)
    (sortByTimestamp data).headI.timestamp ⟨_, hhead_mem, rfl⟩
  have hexp := generateExpectedTimestamps_cons (sortByTimestamp data).headI.timestamp
    ((sortByTimestamp data).getLastD default).timestamp tf hse
  have hout : handleMissingValues data
      = c₀ :: fillLoop (dataMap (sortByTimestamp data))
          (genLoop tf ((sortByTimestamp data).getLastD default).timestamp
            (((sortByTimestamp data).getLastD default).timestamp
              - (sortByTimestamp data).headI.timestamp).toNat
            ((sortByTimestamp data).headI.timestamp + tf))
          (some c₀) := by
    rw [handleMissingValues_eq data tf htf h0, hexp]
    simp [fillLoop, hc₀]
  refine ⟨?_, ?_, ?_, ?_⟩
  · rw [hout, hexp]
    simp only [List.map_cons]
    rw [fillLoop_map_timestamp _ hdm, hdm _ _ hc₀]
  · rw [hout]
    exact fillLoop_chain _ hdm _ c₀
  · rw [hout]
    simp
  · rw [hout]
    simp only [List.headI_cons]
    rw [hdm _ _ hc₀]
    exact hc₀

/-- C3: for an input with a detectable (nonzero) timeframe, the output of
`handleMissingValues` has consecutive timestamps differing by exactly the
inferred timeframe and is strictly ascending — no gaps, no duplicates (and
the unfillable leading segment is in fact empty, because the expected range
starts at the first actual timestamp). -/
theorem handleMissingValues_no_gaps (data : List Candle) (tf : ℤ)
    (htf : getTimeframeFromData (sortByTimestamp data) = some tf) (h0 : tf ≠ 0) :
    List.Chain' (fun a b => b.timestamp = a.timestamp + tf) (handleMissingValues data) ∧
    (handleMissingValues data).Pairwise (fun a b => a.timestamp < b.timestamp) := by
  obtain ⟨hmap, _, _, _⟩ := handleMissingValues_master data tf htf h0
  have htfpos : 0 < tf := timeframe_pos_of_sorted data tf htf h0
  have hchain : List.Chain' (fun x y : ℤ => y = x + tf)
      ((handleMissingValues data).map (·.timestamp)) := by
    rw [hmap]
    simp only [generateExpectedTimestamps]
    exact genLoop_chain tf _ _ _
  have hchain' := (List.chain'_map (fun c : Candle => c.timestamp)).1 hchain
  refine ⟨hchain', ?_⟩
  have hlt : List.Chain' (fun a b : Candle => a.timestamp < b.timestamp)
      (handleMissingValues data) :=
    hchain'.imp (fun a b h => by omega)
  haveI : IsTrans Candle (fun a b => a.timestamp < b.timestamp) :=
    ⟨fun _ _ _ h h' => lt_trans h h'⟩
  exact List.chain'_iff_pairwise.1 hlt

/-- Witness for C3 on timestamps 0, 10, 20, 25, 35 (timeframe 10). -/
theorem handleMissingValues_no_gaps_witness :
    (getTimeframeFromData (sortByTimestamp [mkC 0, mkC 10, mkC 20, mkC 25, mkC 35])
        = some 10 ∧ (10 : ℤ) ≠ 0) ∧
    (List.Chain' (fun a b => b.timestamp = a.timestamp + 10)
        (handleMissingValues [mkC 0, mkC 10, mkC 20, mkC 25, mkC 35]) ∧
      (handleMissingValues [mkC 0, mkC 10, mkC 20, mkC 25, mkC 35]).Pairwise
        (fun a b => a.timestamp < b.timestamp)) :=
  ⟨⟨by decide, by decide⟩,
    handleMissingValues_no_gaps [mkC 0, mkC 10, mkC 20, mkC 25, mkC 35] 10 (by decide) (by decide)⟩

/-- C4: every output candle's timestamp lies on the arithmetic grid
`first sorted timestamp + k * timeframe`; any input candle off that grid is
absent from the output; and the output can be strictly shorter than the input
even though the leading segment is fillable (timestamps 0, 10, 20, 25, 35
give 4 output candles for 5 input candles). -/
theorem handleMissingValues_grid (data : List Candle) (tf : ℤ)
    (htf : getTimeframeFromData (sortByTimestamp data) = some tf) (h0 : tf ≠ 0) :
    (∀ c' ∈ handleMissingValues data, ∃ k : ℕ,
        c'.timestamp = (sortByTimestamp data).headI.timestamp + k * tf) ∧
    (∀ c ∈ data,
        (∀ k : ℕ, c.timestamp ≠ (sortByTimestamp data).headI.timestamp + k * tf) →
        ∀ c' ∈ handleMissingValues data, c'.timestamp ≠ c.timestamp) ∧
    (handleMissingValues [mkC 0, mkC 10, mkC 20, mkC 25, mkC 35]).length
      < ([mkC 0, mkC 10, mkC 20, mkC 25, mkC 35] : List Candle).length := by
  obtain ⟨hmap, _, _, _⟩ := handleMissingValues_master data tf htf h0
  have hgrid : ∀ c' ∈ handleMissingValues data, ∃ k : ℕ,
      c'.timestamp = (sortByTimestamp data).headI.timestamp + k * tf := by
    intro c' hc'
    have hmem : c'.timestamp ∈ (handleMissingValues data).map (·.timestamp) :=
      List.mem_map_of_mem _ hc'
    rw [hmap] at hmem
    simp only [generateExpectedTimestamps] at hmem
    exact (genLoop_mem tf _ _ _ _ hmem).2
  refine ⟨hgrid, ?_, by decide⟩
  intro c _ hoff c' hc' heq
  rcases hgrid c' hc' with ⟨k, hk⟩
  exact hoff k (by rw [← heq]; exact hk)

/-- Witness for C4 on timestamps 0, 10, 20, 25, 35 (timeframe 10). -/
theorem handleMissingValues_grid_witness :
    (getTimeframeFromData (sortByTimestamp [mkC 0, mkC 10, mkC 20, mkC 25, mkC 35])
        = some 10 ∧ (10 : ℤ) ≠ 0) ∧
    (∀ c' ∈ handleMissingValues [mkC 0, mkC 10, mkC 20, mkC 25, mkC 35], ∃ k : ℕ,
        c'.timestamp
          = (sortByTimestamp [mkC 0, mkC 10, mkC 20, mkC 25, mkC 35]).headI.timestamp
            + k * 10) :=
  ⟨⟨by decide, by decide⟩,
    (handleMissingValues_grid [mkC 0, mkC 10, mkC 20, mkC 25, mkC 35] 10
      (by decide) (by decide)).1⟩

theorem chain'_all_of_head {R : Candle → Candle → Prop} {P : Candle → Prop}
    (hR : ∀ a b, R a b → P b) :
    ∀ l : List Candle, List.Chain' R l → (l ≠ [] → P l.headI) → ∀ x ∈ l, P x := by
  intro l
  induction l with
  | nil => intro _ _ x hx; simp at hx
  | cons a l ih =>
    intro hc hh x hx
    rcases List.mem_cons.1 hx with rfl | hx
    · exact hh (by simp)
    · rcases l with _ | ⟨b, l'⟩
      · simp at hx
      · rw [List.chain'_cons] at hc
        exact ih hc.2 (fun _ => hR a b hc.1) x hx

/-- C7: the first output candle is the input candle stored for the first
expected timestamp; along the output, every candle is either the input candle
stored for its (expected) timestamp kept as-is, or — when its timestamp is
missing from the input — a synthesized candle whose open, high, low and close
all equal the preceding output candle's close, with volume 0 and
`interpolated = true`; and every expected timestamp present in the input
keeps its stored input candle in the output. -/
theorem handleMissingValues_forward_fill (data : List Candle) (tf : ℤ)
    (htf : getTimeframeFromData (sortByTimestamp data) = some tf) (h0 : tf ≠ 0) :
    (handleMissingValues data ≠ [] ∧
      dataMap (sortByTimestamp data) ((handleMissingValues data).headI.timestamp)
        = some (handleMissingValues data).headI ∧
      (handleMissingValues data).headI ∈ data) ∧
    List.Chain' (fun a b =>
      (dataMap (sortByTimestamp data) b.timestamp = some b ∧ b ∈ data) ∨
      (dataMap (sortByTimestamp data) b.timestamp = none ∧ b.opn = a.close ∧
        b.high = a.close ∧ b.low = a.close ∧ b.close = a.close ∧ b.volume = 0 ∧
        b.interpolated = true)) (handleMissingValues data) ∧
    (∀ ts ∈ generateExpectedTimestamps (sortByTimestamp data).headI.timestamp
        ((sortByTimestamp data).getLastD default).timestamp tf,
      ∀ c, dataMap (sortByTimestamp data) ts = some c → c ∈ handleMissingValues data) := by
  obtain ⟨hmap, hchain, hne, hhead⟩ := handleMissingValues_master data tf htf h0
  have hmemdata : ∀ b : Candle,
      dataMap (sortByTimestamp data) b.timestamp = some b → b ∈ data :=
    fun b hb => (sortByTimestamp_perm data).mem_iff.1 (dataMap_sound _ _ _ hb).1
  have hchain2 : List.Chain' (fun a b =>
      (dataMap (sortByTimestamp data) b.timestamp = some b ∧ b ∈ data) ∨
      (dataMap (sortByTimestamp data) b.timestamp = none ∧ b.opn = a.close ∧
        b.high = a.close ∧ b.low = a.close ∧ b.close = a.close ∧ b.volume = 0 ∧
        b.interpolated = true)) (handleMissingValues data) := by
    apply hchain.imp
    intro a b hab
    rcases hab with hp | hfill
    · exact Or.inl ⟨hp, hmemdata b hp⟩
    · exact Or.inr hfill
  have hP : ∀ x ∈ handleMissingValues data,
      dataMap (sortByTimestamp data) x.timestamp = some x ∨
        dataMap (sortByTimestamp data) x.timestamp = none :=
    @chain'_all_of_head (fillRel (dataMap (sortByTimestamp data)))
      (fun x => dataMap (sortByTimestamp data) x.timestamp = some x ∨
        dataMap (sortByTimestamp data) x.timestamp = none)
      (fun _ b hab => hab.imp (fun h => h) (fun h => h.1))
      (handleMissingValues data) hchain (fun _ => Or.inl hhead)
  refine ⟨⟨hne, hhead, hmemdata _ hhead⟩, hchain2, ?_⟩
  intro ts hts c hc
  have hmem : ts ∈ (handleMissingValues data).map (·.timestamp) := by
    rw [hmap]
    exact hts
  rcases List.mem_map.1 hmem with ⟨c', hc', hts'⟩
  rcases hP c' hc' with hsome | hnone
  · rw [hts', hc] at hsome
    injection hsome with h
    rw [h]
    exact hc'
  · rw [hts', hc] at hnone
    cases hnone

/-- Witness for C7 on timestamps 0, 10, 20, 25, 35 (timeframe 10). -/
theorem handleMissingValues_forward_fill_witness :
    (getTimeframeFromData (sortByTimestamp [mkC 0, mkC 10, mkC 20, mkC 25, mkC 35])
        = some 10 ∧ (10 : ℤ) ≠ 0) ∧
    (handleMissingValues [mkC 0, mkC 10, mkC 20, mkC 25, mkC 35] ≠ [] ∧
      dataMap (sortByTimestamp [mkC 0, mkC 10, mkC 20, mkC 25, mkC 35])
          ((handleMissingValues [mkC 0, mkC 10, mkC 20, mkC 25, mkC 35]).headI.timestamp)
        = some (handleMissingValues [mkC 0, mkC 10, mkC 20, mkC 25, mkC 35]).headI ∧
      (handleMissingValues [mkC 0, mkC 10, mkC 20, mkC 25, mkC 35]).headI
        ∈ ([mkC 0, mkC 10, mkC 20, mkC 25, mkC 35] : List Candle)) :=
  ⟨⟨by decide, by decide⟩,
    (handleMissingValues_forward_fill [mkC 0, mkC 10, mkC 20, mkC 25, mkC 35] 10
      (by decide) (by decide)).1⟩

/-- Population mean of the `high` values (`sumHigh / data.length`). -/
noncomputable def meanHigh (data : List Candle) : ℝ :=
  (data.map (·.high)).sum / data.length

/-- Population mean of the `low` values. -/
noncomputable def meanLow (data : List Candle) : ℝ :=
  (data.map (·.low)).sum / data.length

/-- Population standard deviation of the `high` values
(`Math.sqrt(sumSquaredDevHigh / data.length)`). -/
noncomputable def stdDevHigh (data : List Candle) : ℝ :=
  Real.sqrt ((data.map (fun c => (c.high - meanHigh data) ^ 2)).sum / data.length)

/-- Population standard deviation of the `low` values. -/
noncomputable def stdDevLow (data : List Candle) : ℝ :=
  Real.sqrt ((data.map (fun c => (c.low - meanLow data) ^ 2)).sum / data.length)

/-- The test `Math.abs((candle.high - meanHigh) / stdDevHigh) > threshold`.
When the standard deviation is 0 the JS quotient is `NaN` (it is `0/0`, since
a zero population deviation forces every high to equal the mean), and a
comparison with `NaN` is always false, so no candle is flagged; the
`stdDevHigh data ≠ 0` guard models exactly that. -/
def isHighOutlier (data : List Candle) (threshold : ℝ) (c : Candle) : Prop :=
  stdDevHigh data ≠ 0 ∧ threshold < |(c.high - meanHigh data) / stdDevHigh data|

/-- The corresponding test for the `low` z-score. -/
def isLowOutlier (data : List Candle) (threshold : ℝ) (c : Candle) : Prop :=
  stdDevLow data ≠ 0 ∧ threshold < |(c.low - meanLow data) / stdDevLow data|

open Classical in
/-- The per-candle correction of `removeOutliers`: an else-if — a candle
flagged for its high is clamped there and its low is never examined. -/
noncomputable def correctCandle (data : List Candle) (threshold : ℝ) (c : Candle) : Candle :=
  if isHighOutlier data threshold c then
    { c with high := min c.high (meanHigh data + threshold * stdDevHigh data),
             outlierCorrected := true }
  else if isLowOutlier data threshold c then
    { c with low := max c.low (meanLow data - threshold * stdDevLow data),
             outlierCorrected := true }
  else c

/-- Model of `removeOutliers` (default threshold 3 supplied by the caller): a no-op on
fewer than 10 candles. -/
noncomputable def removeOutliers (data : List Candle) (threshold : ℝ) : List Candle :=
  if data.length < 10 then data else data.map (correctCandle data threshold)

theorem list_sum_nonneg_zero (l : List ℝ) (hnn : ∀ x ∈ l, 0 ≤ x) (h : l.sum = 0) :
    ∀ x ∈ l, x = 0 := by
  induction l with
  | nil => simp
  | cons a l ih =>
    intro x hx
    have ha : 0 ≤ a := hnn a (by simp)
    have hl : 0 ≤ l.sum := List.sum_nonneg (fun y hy => hnn y (by simp [hy]))
    simp only [List.sum_cons] at h
    rcases List.mem_cons.1 hx with rfl | hx
    · linarith
    · exact ih (fun y hy => hnn y (by simp [hy])) (by linarith) x hx

theorem stdDevHigh_eq_zero (data : List Candle) (hne : data ≠ [])
    (h : stdDevHigh data = 0) : ∀ c ∈ data, c.high = meanHigh data := by
  have hn : (0 : ℝ) < data.length := by
    have : 0 < data.length := List.length_pos.2 hne
    exact_mod_cast this
  have hsumnn : 0 ≤ (data.map (fun c => (c.high - meanHigh data) ^ 2)).sum :=
    List.sum_nonneg (by
      intro x hx
      rcases List.mem_map.1 hx with ⟨c, _, rfl⟩
      positivity)
  have hquot : ((data.map (fun c => (c.high - meanHigh data) ^ 2)).sum / (data.length : ℝ)) = 0 := by
    have hle : ((data.map (fun c => (c.high - meanHigh data) ^ 2)).sum / (data.length : ℝ)) ≤ 0 :=
      Real.sqrt_eq_zero'.1 h
    have hge : 0 ≤ (data.map (fun c => (c.high - meanHigh data) ^ 2)).sum / (data.length : ℝ) :=
      div_nonneg hsumnn (le_of_lt hn)
    linarith
  have hsum : (data.map (fun c => (c.high - meanHigh data) ^ 2)).sum = 0 := by
    rcases div_eq_zero_iff.1 hquot with h' | h'
    · exact h'
    · exact absurd h' (ne_of_gt hn)
  intro c hc
  have hz := list_sum_nonneg_zero _ (by
      intro x hx
      rcases List.mem_map.1 hx with ⟨d, _, rfl⟩
      positivity) hsum ((c.high - meanHigh data) ^ 2) (List.mem_map_of_mem _ hc)
  have := (pow_eq_zero_iff (by norm_num : (2 : ℕ) ≠ 0)).1 hz
  linarith

theorem stdDevLow_eq_zero (data : List Candle) (hne : data ≠ [])
    (h : stdDevLow data = 0) : ∀ c ∈ data, c.low = meanLow data := by
  have hn : (0 : ℝ) < data.length := by
    have : 0 < data.length := List.length_pos.2 hne
    exact_mod_cast this
  have hsumnn : 0 ≤ (data.map (fun c => (c.low - meanLow data) ^ 2)).sum :=
    List.sum_nonneg (by
      intro x hx
      rcases List.mem_map.1 hx with ⟨c, _, rfl⟩
      positivity)
  have hquot : ((data.map (fun c => (c.low - meanLow data) ^ 2)).sum / (data.length : ℝ)) = 0 := by
    have hle : ((data.map (fun c => (c.low - meanLow data) ^ 2)).sum / (data.length : ℝ)) ≤ 0 :=
      Real.sqrt_eq_zero'.1 h
    have hge : 0 ≤ (data.map (fun c => (c.low - meanLow data) ^ 2)).sum / (data.length : ℝ) :=
      div_nonneg hsumnn (le_of_lt hn)
    linarith
  have hsum : (data.map (fun c => (c.low - meanLow data) ^ 2)).sum = 0 := by
    rcases div_eq_zero_iff.1 hquot with h' | h'
    · exact h'
    · exact absurd h' (ne_of_gt hn)
  intro c hc
  have hz := list_sum_nonneg_zero _ (by
      intro x hx
      rcases List.mem_map.1 hx with ⟨d, _, rfl⟩
      positivity) hsum ((c.low - meanLow data) ^ 2) (List.mem_map_of_mem _ hc)
  have := (pow_eq_zero_iff (by norm_num : (2 : ℕ) ≠ 0)).1 hz
  linarith

/-- C1 (amended): after correction, every candle's high is at most
`meanHigh + T*stdDevHigh` (original batch statistics); the corresponding low
bound `low ≥ meanLow − T*stdDevLow` holds for every candle that is *not*
flagged as a high outlier.  (A high-flagged candle skips the low check — the
else-if — so its low may stay below the bound; see the counterexample.) -/
theorem removeOutliers_clamp_amended (data : List Candle) (threshold : ℝ)
    (hlen : 10 ≤ data.length) :
    (∀ c' ∈ removeOutliers data threshold,
        c'.high ≤ meanHigh data + threshold * stdDevHigh data) ∧
    (∀ c ∈ data, ¬ isHighOutlier data threshold c →
        meanLow data - threshold * stdDevLow data ≤ (correctCandle data threshold c).low) := by
  have hne : data ≠ [] := by
    intro h
    rw [h] at hlen
    simp at hlen
  have hmap : removeOutliers data threshold = data.map (correctCandle data threshold) := by
    simp only [removeOutliers, if_neg (by omega : ¬ data.length < 10)]
  have hhigh : ∀ c ∈ data,
      (correctCandle data threshold c).high ≤ meanHigh data + threshold * stdDevHigh data := by
    intro c hc
    by_cases hH : isHighOutlier data threshold c
    · simp only [correctCandle, if_pos hH]
      exact min_le_right _ _
    · have hch : (correctCandle data threshold c).high = c.high := by
        simp only [correctCandle, if_neg hH]
        split
        · rfl
        · rfl
      rw [hch]
      by_cases hs : stdDevHigh data = 0
      · have := stdDevHigh_eq_zero data hne hs c hc
        rw [this, hs]
        ring_nf
        simp
      · have hspos : 0 < stdDevHigh data :=
          lt_of_le_of_ne (Real.sqrt_nonneg _) (Ne.symm hs)
        have habs : |(c.high - meanHigh data) / stdDevHigh data| ≤ threshold := by
          by_contra hgt
          exact hH ⟨hs, lt_of_not_le hgt⟩
        rw [abs_div, abs_of_pos hspos, div_le_iff hspos] at habs
        have := le_abs_self (c.high - meanHigh data)
        linarith
  refine ⟨?_, ?_⟩
  · intro c' hc'
    rw [hmap] at hc'
    rcases List.mem_map.1 hc' with ⟨c, hc, rfl⟩
    exact hhigh c hc
  · intro c hc hH
    by_cases hL : isLowOutlier data threshold c
    · simp only [correctCandle, if_neg hH, if_pos hL]
      exact le_max_right _ _
    · have hcl : (correctCandle data threshold c).low = c.low := by
        simp only [correctCandle, if_neg hH, if_neg hL]
      rw [hcl]
      by_cases hs : stdDevLow data = 0
      · have := stdDevLow_eq_zero data hne hs c hc
        rw [this, hs]
        ring_nf
        simp
      · have hspos : 0 < stdDevLow data :=
          lt_of_le_of_ne (Real.sqrt_nonneg _) (Ne.symm hs)
        have habs : |(c.low - meanLow data) / stdDevLow data| ≤ threshold := by
          by_contra hgt
          exact hL ⟨hs, lt_of_not_le hgt⟩
        rw [abs_div, abs_of_pos hspos, div_le_iff hspos] at habs
        have := neg_abs_le (c.low - meanLow data)
        linarith

/-- Candle with explicit high and low, for the outlier examples. -/
def oC (t : ℤ) (h l : ℝ) : Candle :=
  { timestamp := t, datetime := t, opn := 1, high := h, low := l, close := 1, volume := 1 }

/-- Ten candles: the first has an inflated high (10) and a deflated low
(−10); the other nine have high 0 and low 0. -/
def exOutlier : List Candle :=
  [oC 0 10 (-10), oC 1 0 0, oC 2 0 0, oC 3 0 0, oC 4 0 0,
   oC 5 0 0, oC 6 0 0, oC 7 0 0, oC 8 0 0, oC 9 0 0]

theorem exOutlier_meanHigh : meanHigh exOutlier = 1 := by
  simp only [meanHigh, exOutlier, oC, List.map_cons, List.map_nil, List.sum_cons,
    List.sum_nil, List.length_cons, List.length_nil]
  norm_num

theorem exOutlier_meanLow : meanLow exOutlier = -1 := by
  simp only [meanLow, exOutlier, oC, List.map_cons, List.map_nil, List.sum_cons,
    List.sum_nil, List.length_cons, List.length_nil]
  norm_num

theorem exOutlier_stdDevHigh : stdDevHigh exOutlier = 3 := by
  have h9 : ((exOutlier.map (fun c => (c.high - meanHigh exOutlier) ^ 2)).sum
      / (exOutlier.length : ℝ)) = 9 := by
    rw [exOutlier_meanHigh]
    simp only [exOutlier, oC, List.map_cons, List.map_nil, List.sum_cons, List.sum_nil,
      List.length_cons, List.length_nil]
    norm_num
  rw [stdDevHigh, h9, show (9 : ℝ) = 3 ^ 2 by norm_num,
    Real.sqrt_sq (by norm_num : (0 : ℝ) ≤ 3)]

theorem exOutlier_stdDevLow : stdDevLow exOutlier = 3 := by
  have h9 : ((exOutlier.map (fun c => (c.low - meanLow exOutlier) ^ 2)).sum
      / (exOutlier.length : ℝ)) = 9 := by
    rw [exOutlier_meanLow]
    simp only [exOutlier, oC, List.map_cons, List.map_nil, List.sum_cons, List.sum_nil,
      List.length_cons, List.length_nil]
    norm_num
  rw [stdDevLow, h9, show (9 : ℝ) = 3 ^ 2 by norm_num,
    Real.sqrt_sq (by norm_num : (0 : ℝ) ≤ 3)]

/-- C1 counterexample: with threshold 1 on `exOutlier`, the first candle is a
high outlier (z-score 3), the else-if clamps only its high, and its low −10
stays below `meanLow − 1·stdDevLow = −4`, so the unconditional bound claim is
false. -/
theorem removeOutliers_clamp_counterexample :
    ¬ (∀ c' ∈ removeOutliers exOutlier 1,
        c'.high ≤ meanHigh exOutlier + 1 * stdDevHigh exOutlier ∧
        meanLow exOutlier - 1 * stdDevLow exOutlier ≤ c'.low) := by
  intro h
  have hmem : correctCandle exOutlier 1 (oC 0 10 (-10)) ∈ removeOutliers exOutlier 1 := by
    have hlen : ¬ exOutlier.length < 10 := by
      simp [exOutlier]
    simp only [removeOutliers, if_neg hlen]
    exact List.mem_map_of_mem _ (by simp [exOutlier])
  have hlow := (h _ hmem).2
  have hH : isHighOutlier exOutlier 1 (oC 0 10 (-10)) := by
    refine ⟨by rw [exOutlier_stdDevHigh]; norm_num, ?_⟩
    rw [exOutlier_stdDevHigh, exOutlier_meanHigh]
    simp only [oC]
    norm_num
  rw [correctCandle, if_pos hH] at hlow
  rw [exOutlier_meanLow, exOutlier_stdDevLow] at hlow
  simp only [oC] at hlow
  norm_num at hlow

/-- Witness for C1 (amended) at the default threshold 3 on `exOutlier`. -/
theorem removeOutliers_clamp_amended_witness :
    10 ≤ exOutlier.length ∧
    ((∀ c' ∈ removeOutliers exOutlier 3,
        c'.high ≤ meanHigh exOutlier + 3 * stdDevHigh exOutlier) ∧
      (∀ c ∈ exOutlier, ¬ isHighOutlier exOutlier 3 c →
        meanLow exOutlier - 3 * stdDevLow exOutlier
          ≤ (correctCandle exOutlier 3 c).low)) :=
  ⟨by simp [exOutlier], removeOutliers_clamp_amended exOutlier 3 (by simp [exOutlier])⟩

/-- Model of the `Math.min` fold over a batch field.  The JS fold starts from `Infinity`;
`normalizeData` only evaluates it on nonempty batches, where the fold equals
the list minimum, so the 0 returned on `[]` is never observed. -/
noncomputable def listMin : List ℝ → ℝ
  | [] => 0
  | x :: xs => xs.foldl min x

/-- Model of the `Math.max` fold over a batch field (JS starts from `-Infinity`). -/
noncomputable def listMax : List ℝ → ℝ
  | [] => 0
  | x :: xs => xs.foldl max x

open Classical in
/-- The per-candle mapping of `normalizeData`: adds
`normalized… = (value − min) / (max − min || 1)` for the five fields, keeping
every original field.  `(… || 1)` replaces a zero denominator by 1. -/
noncomputable def normCandle (data : List Candle) (c : Candle) : Candle :=
  let minO := listMin (data.map (·.opn))
  let maxO := listMax (data.map (·.opn))
  let minH := listMin (data.map (·.high))
  let maxH := listMax (data.map (·.high))
  let minL := listMin (data.map (·.low))
  let maxL := listMax (data.map (·.low))
  let minC := listMin (data.map (·.close))
  let maxC := listMax (data.map (·.close))
  let minV := listMin (data.map (·.volume))
  let maxV := listMax (data.map (·.volume))
  { c with
    nOpen := some ((c.opn - minO) / (if maxO - minO = 0 then 1 else maxO - minO))
    nHigh := some ((c.high - minH) / (if maxH - minH = 0 then 1 else maxH - minH))
    nLow := some ((c.low - minL) / (if maxL - minL = 0 then 1 else maxL - minL))
    nClose := some ((c.close - minC) / (if maxC - minC = 0 then 1 else maxC - minC))
    nVolume := some ((c.volume - minV) / (if maxV - minV = 0 then 1 else maxV - minV)) }

/-- Model of `normalizeData`. -/
noncomputable def normalizeData (data : List Candle) : List Candle :=
  match data with
  | [] => []
  | _ => data.map (normCandle data)

theorem foldl_min_le_init : ∀ (xs : List ℝ) (a : ℝ), xs.foldl min a ≤ a
  | [], a => le_refl a
  | x :: xs, a => le_trans (foldl_min_le_init xs (min a x)) (min_le_left a x)

theorem foldl_min_le_mem : ∀ (xs : List ℝ) (a y : ℝ), y ∈ xs → xs.foldl min a ≤ y
  | [], _, _, hy => absurd hy (List.not_mem_nil _)
  | x :: xs, a, y, hy => by
    rcases List.mem_cons.1 hy with rfl | hy
    · exact le_trans (foldl_min_le_init xs (min a y)) (min_le_right a y)
    · exact foldl_min_le_mem xs (min a x) y hy

theorem foldl_max_init_le : ∀ (xs : List ℝ) (a : ℝ), a ≤ xs.foldl max a
  | [], a => le_refl a
  | x :: xs, a => le_trans (le_max_left a x) (foldl_max_init_le xs (max a x))

theorem foldl_max_mem_le : ∀ (xs : List ℝ) (a y : ℝ), y ∈ xs → y ≤ xs.foldl max a
  | [], _, _, hy => absurd hy (List.not_mem_nil _)
  | x :: xs, a, y, hy => by
    rcases List.mem_cons.1 hy with rfl | hy
    · exact le_trans (le_max_right a y) (foldl_max_init_le xs (max a y))
    · exact foldl_max_mem_le xs (max a x) y hy

theorem listMin_le (l : List ℝ) (y : ℝ) (hy : y ∈ l) : listMin l ≤ y := by
  cases l with
  | nil => exact absurd hy (List.not_mem_nil _)
  | cons x xs =>
    rcases List.mem_cons.1 hy with rfl | hy
    · exact foldl_min_le_init xs y
    · exact foldl_min_le_mem xs x y hy

theorem le_listMax (l : List ℝ) (y : ℝ) (hy : y ∈ l) : y ≤ listMax l := by
  cases l with
  | nil => exact absurd hy (List.not_mem_nil _)
  | cons x xs =>
    rcases List.mem_cons.1 hy with rfl | hy
    · exact foldl_max_init_le xs y
    · exact foldl_max_mem_le xs x y hy

theorem norm01 (mn mx v : ℝ) (hmn : mn ≤ v) (hmx : v ≤ mx) :
    0 ≤ (v - mn) / (if mx - mn = 0 then 1 else mx - mn) ∧
      (v - mn) / (if mx - mn = 0 then 1 else mx - mn) ≤ 1 := by
  by_cases h : mx - mn = 0
  · rw [if_pos h]
    have hv : v = mn := le_antisymm (by linarith) hmn
    simp [hv]
  · rw [if_neg h]
    have hlt : 0 < mx - mn := lt_of_le_of_ne (by linarith) (Ne.symm h)
    constructor
    · exact div_nonneg (by linarith) (le_of_lt hlt)
    · rw [div_le_one hlt]
      linarith

theorem norm_max_val (mn mx : ℝ) (hle : mn ≤ mx) :
    (mx - mn) / (if mx - mn = 0 then 1 else mx - mn) = if mx = mn then 0 else 1 := by
  by_cases h : mx - mn = 0
  · rw [if_pos h, if_pos (by linarith)]
    simp [h]
  · rw [if_neg h, if_neg (fun he => h (by rw [he]; ring)), div_self h]

/-- C8: `normalizeData` maps every candle through `normCandle`, which keeps
all original fields, puts every normalized field in [0, 1], and sends the
candle attaining the batch maximum of a field to exactly 1 — or exactly 0
when that field's batch minimum equals its maximum (the `|| 1` denominator,
never NaN). -/
theorem normalizeData_range (data : List Candle) :
    normalizeData data = data.map (normCandle data) ∧
    (∀ c ∈ data,
      (normCandle data c).timestamp = c.timestamp ∧
      (normCandle data c).opn = c.opn ∧ (normCandle data c).high = c.high ∧
      (normCandle data c).low = c.low ∧ (normCandle data c).close = c.close ∧
      (normCandle data c).volume = c.volume) ∧
    (∀ c ∈ data,
      (∃ x, (normCandle data c).nOpen = some x ∧ 0 ≤ x ∧ x ≤ 1) ∧
      (∃ x, (normCandle data c).nHigh = some x ∧ 0 ≤ x ∧ x ≤ 1) ∧
      (∃ x, (normCandle data c).nLow = some x ∧ 0 ≤ x ∧ x ≤ 1) ∧
      (∃ x, (normCandle data c).nClose = some x ∧ 0 ≤ x ∧ x ≤ 1) ∧
      (∃ x, (normCandle data c).nVolume = some x ∧ 0 ≤ x ∧ x ≤ 1)) ∧
    (∀ c ∈ data,
      (c.opn = listMax (data.map (·.opn)) →
        (normCandle data c).nOpen = some (if listMax (data.map (·.opn))
          = listMin (data.map (·.opn)) then 0 else 1)) ∧
      (c.high = listMax (data.map (·.high)) →
        (normCandle data c).nHigh = some (if listMax (data.map (·.high))
          = listMin (data.map (·.high)) then 0 else 1)) ∧
      (c.low = listMax (data.map (·.low)) →
        (normCandle data c).nLow = some (if listMax (data.map (·.low))
          = listMin (data.map (·.low)) then 0 else 1)) ∧
      (c.close = listMax (data.map (·.close)) →
        (normCandle data c).nClose = some (if listMax (data.map (·.close))
          = listMin (data.map (·.close)) then 0 else 1)) ∧
      (c.volume = listMax (data.map (·.volume)) →
        (normCandle data c).nVolume = some (if listMax (data.map (·.volume))
          = listMin (data.map (·.volume)) then 0 else 1))) := by
  have hbounds : ∀ (f : Candle → ℝ) (c : Candle), c ∈ data →
      listMin (data.map f) ≤ f c ∧ f c ≤ listMax (data.map f) :=
    fun f c hc => ⟨listMin_le _ _ (List.mem_map_of_mem f hc),
      le_listMax _ _ (List.mem_map_of_mem f hc)⟩
  refine ⟨?_, ?_, ?_, ?_⟩
  · cases data with
    | nil => rfl
    | cons a l => rfl
  · intro c _
    exact ⟨rfl, rfl, rfl, rfl, rfl, rfl⟩
  · intro c hc
    refine ⟨⟨_, rfl, ?_⟩, ⟨_, rfl, ?_⟩, ⟨_, rfl, ?_⟩, ⟨_, rfl, ?_⟩, ⟨_, rfl, ?_⟩⟩
    · exact norm01 _ _ _ (hbounds (·.opn) c hc).1 (hbounds (·.opn) c hc).2
    · exact norm01 _ _ _ (hbounds (·.high) c hc).1 (hbounds (·.high) c hc).2
    · exact norm01 _ _ _ (hbounds (·.low) c hc).1 (hbounds (·.low) c hc).2
    · exact norm01 _ _ _ (hbounds (·.close) c hc).1 (hbounds (·.close) c hc).2
    · exact norm01 _ _ _ (hbounds (·.volume) c hc).1 (hbounds (·.volume) c hc).2
  · intro c hc
    have key : ∀ (f : Candle → ℝ), f c = listMax (data.map f) →
        (listMax (data.map f) - listMin (data.map f))
          / (if listMax (data.map f) - listMin (data.map f) = 0 then 1
              else listMax (data.map f) - listMin (data.map f))
        = if listMax (data.map f) = listMin (data.map f) then 0 else 1 := by
      intro f hf
      have hle : listMin (data.map f) ≤ listMax (data.map f) :=
        le_trans (hbounds f c hc).1 (hbounds f c hc).2
      exact norm_max_val _ _ hle
    refine ⟨?_, ?_, ?_, ?_, ?_⟩ <;> intro hf
    · have := key (·.opn) hf
      simp only [normCandle, hf]
      rw [this]
    · have := key (·.high) hf
      simp only [normCandle, hf]
      rw [this]
    · have := key (·.low) hf
      simp only [normCandle, hf]
      rw [this]
    · have := key (·.close) hf
      simp only [normCandle, hf]
      rw [this]
    · have := key (·.volume) hf
      simp only [normCandle, hf]
      rw [this]

/-- Two-candle batch with distinct values in every field. -/
def nC1 : Candle :=
  { timestamp := 0, datetime := 0, opn := 1, high := 4, low := 0, close := 2, volume := 10 }

/-- Second candle of the normalisation example batch. -/
def nC2 : Candle :=
  { timestamp := 1, datetime := 1, opn := 3, high := 8, low := 1, close := 5, volume := 30 }

/-- Witness for C8 on the two-candle batch. -/
theorem normalizeData_range_witness :
    nC2 ∈ ([nC1, nC2] : List Candle) ∧
    (∃ x, (normCandle [nC1, nC2] nC2).nOpen = some x ∧ 0 ≤ x ∧ x ≤ 1) ∧
    nC2.opn = listMax (([nC1, nC2] : List Candle).map (·.opn)) ∧
    (normCandle [nC1, nC2] nC2).nOpen
      = some (if listMax (([nC1, nC2] : List Candle).map (·.opn))
          = listMin (([nC1, nC2] : List Candle).map (·.opn)) then 0 else 1) := by
  have hmem : nC2 ∈ ([nC1, nC2] : List Candle) := by simp
  have hmax : nC2.opn = listMax (([nC1, nC2] : List Candle).map (·.opn)) := by
    simp only [List.map_cons, List.map_nil, listMax, List.foldl_cons, List.foldl_nil, nC1, nC2]
    norm_num
  exact ⟨hmem, ((normalizeData_range [nC1, nC2]).2.2.1 nC2 hmem).1,
    hmax, ((normalizeData_range [nC1, nC2]).2.2.2 nC2 hmem).1 hmax⟩

open Classical in
/-- The OBV accumulation loop of `calculateOBV`: `prevClose` and `prevObv`
hold `data[i-1].close` and `obv[i-1]`; price up adds the volume, price down
subtracts it, unchanged price repeats the previous OBV. -/
noncomputable def obvLoop : ℝ → ℝ → List Candle → List ℝ
  | _, _, [] => []
  | prevClose, prevObv, c :: rest =>
    let cur := if prevClose < c.close then prevObv + c.volume
      else if c.close < prevClose then prevObv - c.volume
      else prevObv
    cur :: obvLoop c.close cur rest

/-- Model of `calculateOBV`: empty for fewer than 2 candles, otherwise starts at 0. -/
noncomputable def calculateOBV (data : List Candle) : List ℝ :=
  match data with
  | c0 :: c1 :: rest => 0 :: obvLoop c0.close 0 (c1 :: rest)
  | _ => []

theorem obvLoop_length : ∀ (l : List Candle) (pc po : ℝ), (obvLoop pc po l).length = l.length
  | [], _, _ => rfl
  | c :: rest, pc, po => by
    simp only [obvLoop, List.length_cons]
    rw [obvLoop_length rest]

theorem obvLoop_zero (c : Candle) (rest : List Candle) (pc po : ℝ) :
    ((pc < c.close → (obvLoop pc po (c :: rest)).getD 0 0 = po + c.volume) ∧
      (c.close < pc → (obvLoop pc po (c :: rest)).getD 0 0 = po - c.volume) ∧
      (c.close = pc → (obvLoop pc po (c :: rest)).getD 0 0 = po)) := by
  refine ⟨fun h => ?_, fun h => ?_, fun h => ?_⟩
  · show (if pc < c.close then po + c.volume else if c.close < pc then po - c.volume else po)
        = po + c.volume
    rw [if_pos h]
  · show (if pc < c.close then po + c.volume else if c.close < pc then po - c.volume else po)
        = po - c.volume
    rw [if_neg (lt_asymm h), if_pos h]
  · show (if pc < c.close then po + c.volume else if c.close < pc then po - c.volume else po)
        = po
    rw [if_neg (by rw [h]; exact lt_irrefl _), if_neg (by rw [h]; exact lt_irrefl _)]

theorem obvLoop_diff :
    ∀ (l : List Candle) (pc po : ℝ) (i : ℕ), i + 1 < l.length →
      (((l.getD i default).close < (l.getD (i + 1) default).close →
        (obvLoop pc po l).getD (i + 1) 0
          = (obvLoop pc po l).getD i 0 + (l.getD (i + 1) default).volume) ∧
      ((l.getD (i + 1) default).close < (l.getD i default).close →
        (obvLoop pc po l).getD (i + 1) 0
          = (obvLoop pc po l).getD i 0 - (l.getD (i + 1) default).volume) ∧
      ((l.getD (i + 1) default).close = (l.getD i default).close →
        (obvLoop pc po l).getD (i + 1) 0 = (obvLoop pc po l).getD i 0)) := by
  intro l
  induction l with
  | nil => intro pc po i hi; simp at hi
  | cons c rest ih =>
    intro pc po i hi
    have hloop : obvLoop pc po (c :: rest)
        = (if pc < c.close then po + c.volume
            else if c.close < pc then po - c.volume else po)
          :: obvLoop c.close
            (if pc < c.close then po + c.volume
              else if c.close < pc then po - c.volume else po) rest := rfl
    cases i with
    | zero =>
      rcases rest with _ | ⟨d, rest2⟩
      · simp at hi
      · have h0 := obvLoop_zero d rest2 c.close
          (if pc < c.close then po + c.volume else if c.close < pc then po - c.volume else po)
        simp only [hloop, List.getD_cons_succ, List.getD_cons_zero] at h0 ⊢
        exact h0
    | succ k =>
      have hk : k + 1 < rest.length := by
        simp only [List.length_cons] at hi
        omega
      have hrec := ih c.close
        (if pc < c.close then po + c.volume else if c.close < pc then po - c.volume else po)
        k hk
      simp only [hloop, List.getD_cons_succ]
      exact hrec

/-- C9: for two or more candles, `calculateOBV` starts at 0 and each
increment `OBV[i+1] − OBV[i]` is `+volume[i+1]`, `−volume[i+1]` or `0`
according to whether `close[i+1]` rose above, fell below or equalled
`close[i]`; the series has one entry per input candle. -/
theorem calculateOBV_decomposition (data : List Candle) (h2 : 2 ≤ data.length) :
    (calculateOBV data).length = data.length ∧
    (calculateOBV data).head? = some 0 ∧
    ∀ i, i + 1 < data.length →
      ((data.getD i default).close < (data.getD (i + 1) default).close →
        (calculateOBV data).getD (i + 1) 0 - (calculateOBV data).getD i 0
          = (data.getD (i + 1) default).volume) ∧
      ((data.getD (i + 1) default).close < (data.getD i default).close →
        (calculateOBV data).getD (i + 1) 0 - (calculateOBV data).getD i 0
          = -(data.getD (i + 1) default).volume) ∧
      ((data.getD (i + 1) default).close = (data.getD i default).close →
        (calculateOBV data).getD (i + 1) 0 - (calculateOBV data).getD i 0 = 0) := by
  match data, h2 with
  | c0 :: c1 :: rest, _ =>
    have hlen : (calculateOBV (c0 :: c1 :: rest)).length = (c0 :: c1 :: rest).length := by
      simp only [calculateOBV, List.length_cons]
      rw [obvLoop_length]
      simp
    refine ⟨hlen, rfl, ?_⟩
    intro i hi
    have hobv : calculateOBV (c0 :: c1 :: rest) = 0 :: obvLoop c0.close 0 (c1 :: rest) := rfl
    cases i with
    | zero =>
      have h0 := obvLoop_zero c1 rest c0.close 0
      simp only [hobv, List.getD_cons_succ, List.getD_cons_zero]
      refine ⟨fun hup => ?_, fun hdown => ?_, fun heq => ?_⟩
      · rw [h0.1 hup]; ring
      · rw [h0.2.1 hdown]; ring
      · rw [h0.2.2 heq]; ring
    | succ k =>
      have hk : k + 1 < (c1 :: rest).length := by
        simp only [List.length_cons] at hi ⊢
        omega
      have hrec := obvLoop_diff (c1 :: rest) c0.close 0 k hk
      simp only [List.getD_cons_succ] at hrec
      simp only [hobv, List.getD_cons_succ]
      refine ⟨fun hup => ?_, fun hdown => ?_, fun heq => ?_⟩
      · rw [hrec.1 hup]; ring
      · rw [hrec.2.1 hdown]; ring
      · rw [hrec.2.2 heq]; ring

/-- Witness for C9 on a three-candle sequence. -/
theorem calculateOBV_decomposition_witness :
    2 ≤ ([mkC 0, mkC 10, mkC 20] : List Candle).length ∧
    (calculateOBV [mkC 0, mkC 10, mkC 20]).length
      = ([mkC 0, mkC 10, mkC 20] : List Candle).length ∧
    (calculateOBV [mkC 0, mkC 10, mkC 20]).head? = some 0 :=
  ⟨by decide,
    (calculateOBV_decomposition [mkC 0, mkC 10, mkC 20] (by decide)).1,
    (calculateOBV_decomposition [mkC 0, mkC 10, mkC 20] (by decide)).2.1⟩

/-- Modelled from the spec: the `technicalindicators` npm package is an
external dependency, not part of this repository; `SMA.calculate` follows the
standard windowed formula of §4.6 — one arithmetic mean per full window,
giving `n − p + 1` values for `n ≥ p ≥ 1`. -/
noncomputable def SMA_calculate (p : ℕ) (vals : List ℝ) : List ℝ :=
  (List.range (vals.length + 1 - p)).map (fun i => ((vals.drop i).take p).sum / p)

/-- Exponential smoothing loop with factor `k`. -/
noncomputable def emaRun (k : ℝ) : ℝ → List ℝ → List ℝ
  | _, [] => []
  | prev, v :: rest =>
    let cur := v * k + prev * (1 - k)
    cur :: emaRun k cur rest

/-- Modelled from the spec: `EMA.calculate` — an SMA seed over the first `p`
values followed by exponential smoothing with factor `2/(p+1)`, giving
`n − p + 1` values for `n ≥ p ≥ 1`. -/
noncomputable def EMA_calculate (p : ℕ) (vals : List ℝ) : List ℝ :=
  if vals.length < p ∨ p = 0 then []
  else
    let seed := (vals.take p).sum / p
    seed :: emaRun (2 / ((p : ℝ) + 1)) seed (vals.drop p)

/-- Consecutive value changes (`close[i] − close[i−1]`). -/
noncomputable def realChanges : List ℝ → List ℝ
  | a :: b :: rest => (b - a) :: realChanges (b :: rest)
  | _ => []

open Classical in
/-- RSI value from average gain and loss (100 when the loss is 0). -/
noncomputable def rsiVal (g l : ℝ) : ℝ := if l = 0 then 100 else 100 - 100 / (1 + g / l)

/-- Wilder smoothing of gains and losses. -/
noncomputable def rsiRun (p : ℕ) : ℝ → ℝ → List ℝ → List ℝ
  | _, _, [] => []
  | g, l, ch :: rest =>
    let g2 := (g * ((p : ℝ) - 1) + max ch 0) / p
    let l2 := (l * ((p : ℝ) - 1) + max (-ch) 0) / p
    rsiVal g2 l2 :: rsiRun p g2 l2 rest

/-- Modelled from the spec: `RSI.calculate` — Wilder RSI over the close
changes, giving `n − p` values for `n ≥ p + 1`, `p ≥ 1`. -/
noncomputable def RSI_calculate (p : ℕ) (vals : List ℝ) : List ℝ :=
  let ch := realChanges vals
  if ch.length < p ∨ p = 0 then []
  else
    let seedG := ((ch.take p).map (fun x => max x 0)).sum / p
    let seedL := ((ch.take p).map (fun x => max (-x) 0)).sum / p
    rsiVal seedG seedL :: rsiRun p seedG seedL (ch.drop p)

/-- Fast-EMA minus slow-EMA, aligned at the slow end. -/
noncomputable def macdLine (fast slow : ℕ) (vals : List ℝ) : List ℝ :=
  let fe := EMA_calculate fast vals
  let se := EMA_calculate slow vals
  List.zipWith (fun a b => a - b) (fe.drop (fe.length - se.length)) se

/-- Modelled from the spec: `MACD.calculate` — one record per MACD-line
value; the `signal`/`histogram` components are undefined (`none`) on the
first `signalPeriod − 1` records, where the signal EMA is not yet available. -/
noncomputable def MACD_calculate (fast slow sig : ℕ) (vals : List ℝ) :
    List (ℝ × Option ℝ × Option ℝ) :=
  let m := macdLine fast slow vals
  let s := EMA_calculate sig m
  let k := m.length - s.length
  m.zip ((List.replicate k (none : Option ℝ) ++ s.map some).zip
    (List.replicate k (none : Option ℝ)
      ++ (List.zipWith (fun a b => a - b) (m.drop k) s).map some))

/-- Modelled from the spec: `BollingerBands.calculate` — per full window the
middle band is the window mean, the upper/lower bands sit `stdDev` population
standard deviations away; `n − p + 1` records. -/
noncomputable def BB_calculate (p : ℕ) (sd : ℝ) (vals : List ℝ) : List (ℝ × ℝ × ℝ) :=
  (List.range (vals.length + 1 - p)).map (fun i =>
    let w := (vals.drop i).take p
    let mid := w.sum / p
    let dev := Real.sqrt ((w.map (fun x => (x - mid) ^ 2)).sum / p)
    (mid + sd * dev, mid, mid - sd * dev))

/-- True ranges of consecutive candle pairs. -/
noncomputable def trList : List Candle → List ℝ
  | a :: b :: rest =>
    max (b.high - b.low) (max |b.high - a.close| |b.low - a.close|) :: trList (b :: rest)
  | _ => []

/-- Wilder smoothing of the true ranges. -/
noncomputable def wilderRun (p : ℕ) : ℝ → List ℝ → List ℝ
  | _, [] => []
  | prev, v :: rest =>
    let cur := (prev * ((p : ℝ) - 1) + v) / p
    cur :: wilderRun p cur rest

/-- Modelled from the spec: `ATR.calculate` — Wilder-smoothed true range,
giving `n − p` values for `n ≥ p + 1`, `p ≥ 1`. -/
noncomputable def ATR_calculate (p : ℕ) (data : List Candle) : List ℝ :=
  let trs := trList data
  if trs.length < p ∨ p = 0 then []
  else
    let seed := (trs.take p).sum / p
    seed :: wilderRun p seed (trs.drop p)

/-- The `%K` series: one value per full window. -/
noncomputable def stochK (p : ℕ) (data : List Candle) : List ℝ :=
  (List.range (data.length + 1 - p)).map (fun i =>
    let w := (data.drop i).take p
    let hh := listMax (w.map (·.high))
    let ll := listMin (w.map (·.low))
    ((w.getLastD default).close - ll) / (hh - ll) * 100)

/-- Modelled from the spec: `Stochastic.calculate` — one `%K` per full
window; `%D` (an SMA of `%K` over `signalPeriod`) is undefined (`none`) on
the first `signalPeriod − 1` records. -/
noncomputable def Stochastic_calculate (p sig : ℕ) (data : List Candle) :
    List (ℝ × Option ℝ) :=
  let ks := stochK p data
  let ds := SMA_calculate sig ks
  let k := ks.length - ds.length
  ks.zip (List.replicate k (none : Option ℝ) ++ ds.map some)

/-- The repo's null left-padding:
`[...Array(n − r.length).fill(null), ...r]` for a numeric library result. -/
def optPad (n : ℕ) (vals : List ℝ) : List (Option ℝ) :=
  List.replicate (n - vals.length) none ++ vals.map some

/-- Model of `calculateSMA`. -/
noncomputable def calculateSMA (data : List Candle) (period : ℕ) : List (Option ℝ) :=
  if data.length < period then []
  else optPad data.length (SMA_calculate period (data.map (·.close)))

/-- Model of `calculateEMA`. -/
noncomputable def calculateEMA (data : List Candle) (period : ℕ) : List (Option ℝ) :=
  if data.length < period then []
  else optPad data.length (EMA_calculate period (data.map (·.close)))

/-- Model of `calculateRSI`. -/
noncomputable def calculateRSI (data : List Candle) (period : ℕ) : List (Option ℝ) :=
  if data.length < period + 1 then []
  else optPad data.length (RSI_calculate period (data.map (·.close)))

/-- Result shape of `calculateMACD`. -/
structure MACDResult where
  macd : List (Option ℝ)
  signal : List (Option ℝ)
  histogram : List (Option ℝ)

/-- Model of `calculateMACD`: guards on `slowPeriod + signalPeriod`, extracts the
three components of the library records, then left-pads each with the same
padding (`data.length − macd.length` nulls); the undefined early
signal/histogram entries are spread through unchanged. -/
noncomputable def calculateMACD (data : List Candle)
    (fastPeriod slowPeriod signalPeriod : ℕ) : MACDResult :=
  if data.length < slowPeriod + signalPeriod then ⟨[], [], []⟩
  else
    let macdResult := MACD_calculate fastPeriod slowPeriod signalPeriod (data.map (·.close))
    let macd := macdResult.map (fun r => r.1)
    let signal := macdResult.map (fun r => r.2.1)
    let histogram := macdResult.map (fun r => r.2.2)
    let padding := List.replicate (data.length - macd.length) (none : Option ℝ)
    ⟨padding ++ macd.map some, padding ++ signal, padding ++ histogram⟩

/-- Result shape of `calculateBollingerBands`. -/
structure BollingerResult where
  upper : List (Option ℝ)
  middle : List (Option ℝ)
  lower : List (Option ℝ)

/-- Model of `calculateBollingerBands`. -/
noncomputable def calculateBollingerBands (data : List Candle) (period : ℕ) (sd : ℝ) :
    BollingerResult :=
  if data.length < period then ⟨[], [], []⟩
  else
    let bb := BB_calculate period sd (data.map (·.close))
    let upper := bb.map (fun r => r.1)
    let middle := bb.map (fun r => r.2.1)
    let lower := bb.map (fun r => r.2.2)
    let padding := List.replicate (data.length - upper.length) (none : Option ℝ)
    ⟨padding ++ upper.map some, padding ++ middle.map some, padding ++ lower.map some⟩

/-- Model of `calculateATR`. -/
noncomputable def calculateATR (data : List Candle) (period : ℕ) : List (Option ℝ) :=
  if data.length < period + 1 then []
  else optPad data.length (ATR_calculate period data)

/-- Result shape of `calculateStochastic`. -/
structure StochasticResult where
  k : List (Option ℝ)
  d : List (Option ℝ)

/-- Model of `calculateStochastic`. -/
noncomputable def calculateStochastic (data : List Candle) (period signalPeriod : ℕ) :
    StochasticResult :=
  if data.length < period then ⟨[], []⟩
  else
    let stoch := Stochastic_calculate period signalPeriod data
    let kv := stoch.map (fun r => r.1)
    let dv := stoch.map (fun r => r.2)
    let padding := List.replicate (data.length - kv.length) (none : Option ℝ)
    ⟨padding ++ kv.map some, padding ++ dv⟩

/-- The percentage returns pushed from index 1 on. -/
noncomputable def returnsVals : ℝ → List Candle → List ℝ
  | _, [] => []
  | prevClose, c :: rest =>
    ((c.close - prevClose) / prevClose * 100) :: returnsVals c.close rest

/-- Model of `calculateReturns`: `[null]` followed by the percentage returns. -/
noncomputable def calculateReturns (data : List Candle) : List (Option ℝ) :=
  match data with
  | c0 :: c1 :: rest => none :: (returnsVals c0.close (c1 :: rest)).map some
  | _ => []

/-- A padded indicator series aligned to input length `n`: length `n`, and
`none` exactly on the positions before `lookback`. -/
def seriesOk (n lookback : ℕ) (s : List (Option ℝ)) : Prop :=
  s.length = n ∧ ∀ i (hi : i < s.length), (s.get ⟨i, hi⟩ = none ↔ i < lookback)

theorem optPad_length (n : ℕ) (vals : List ℝ) (h : vals.length ≤ n) :
    (optPad n vals).length = n := by
  simp only [optPad, List.length_append, List.length_replicate, List.length_map]
  omega

theorem optPad_seriesOk (n : ℕ) (vals : List ℝ) (h : vals.length ≤ n) :
    seriesOk n (n - vals.length) (optPad n vals) := by
  refine ⟨optPad_length n vals h, ?_⟩
  intro i hi
  rw [List.get_eq_getElem]
  by_cases hip : i < n - vals.length
  · have hrep : i < (List.replicate (n - vals.length) (none : Option ℝ)).length := by
      simp [hip]
    simp only [optPad] at hi ⊢
    rw [List.getElem_append_left hrep, List.getElem_replicate]
    simp [hip]
  · have hge : (List.replicate (n - vals.length) (none : Option ℝ)).length ≤ i := by
      simp only [List.length_replicate]
      omega
    simp only [optPad] at hi ⊢
    rw [List.getElem_append_right hge, List.getElem_map]
    simp [hip]

theorem SMA_calculate_length (p : ℕ) (vals : List ℝ) :
    (SMA_calculate p vals).length = vals.length + 1 - p := by
  simp [SMA_calculate]

theorem emaRun_length : ∀ (k prev : ℝ) (l : List ℝ), (emaRun k prev l).length = l.length
  | _, _, [] => rfl
  | k, prev, v :: rest => by
    simp only [emaRun, List.length_cons]
    rw [emaRun_length]

theorem EMA_calculate_length (p : ℕ) (vals : List ℝ) (hp : 0 < p) (hn : p ≤ vals.length) :
    (EMA_calculate p vals).length = vals.length + 1 - p := by
  simp only [EMA_calculate]
  rw [if_neg (by push_neg; omega)]
  simp only [List.length_cons, emaRun_length, List.length_drop]
  omega

theorem realChanges_length : ∀ l : List ℝ, (realChanges l).length = l.length - 1
  | [] => rfl
  | [_] => rfl
  | a :: b :: r => by
    have := realChanges_length (b :: r)
    simp only [realChanges, List.length_cons] at *
    omega

theorem rsiRun_length : ∀ (p : ℕ) (g l : ℝ) (ch : List ℝ), (rsiRun p g l ch).length = ch.length
  | _, _, _, [] => rfl
  | p, g, l, c :: rest => by
    simp only [rsiRun, List.length_cons]
    rw [rsiRun_length]

theorem RSI_calculate_length (p : ℕ) (vals : List ℝ) (hp : 0 < p)
    (hn : p + 1 ≤ vals.length) : (RSI_calculate p vals).length = vals.length - p := by
  have hch := realChanges_length vals
  simp only [RSI_calculate]
  rw [if_neg (by rw [hch]; push_neg; omega)]
  simp only [List.length_cons, rsiRun_length, List.length_drop, hch]
  omega

theorem macdLine_length (fast slow : ℕ) (vals : List ℝ) (hf : 0 < fast)
    (hfs : fast ≤ slow) (hsn : slow ≤ vals.length) :
    (macdLine fast slow vals).length = vals.length + 1 - slow := by
  have hfe := EMA_calculate_length fast vals hf (le_trans hfs hsn)
  have hse := EMA_calculate_length slow vals (by omega) hsn
  simp only [macdLine, List.length_zipWith, List.length_drop, hfe, hse]
  omega

theorem BB_calculate_length (p : ℕ) (sd : ℝ) (vals : List ℝ) :
    (BB_calculate p sd vals).length = vals.length + 1 - p := by
  simp [BB_calculate]

theorem trList_length : ∀ l : List Candle, (trList l).length = l.length - 1
  | [] => rfl
  | [_] => rfl
  | a :: b :: r => by
    have := trList_length (b :: r)
    simp only [trList, List.length_cons] at *
    omega

theorem wilderRun_length : ∀ (p : ℕ) (prev : ℝ) (l : List ℝ),
    (wilderRun p prev l).length = l.length
  | _, _, [] => rfl
  | p, prev, v :: rest => by
    simp only [wilderRun, List.length_cons]
    rw [wilderRun_length]

theorem ATR_calculate_length (p : ℕ) (data : List Candle) (hp : 0 < p)
    (hn : p + 1 ≤ data.length) : (ATR_calculate p data).length = data.length - p := by
  have htr := trList_length data
  simp only [ATR_calculate]
  rw [if_neg (by rw [htr]; push_neg; omega)]
  simp only [List.length_cons, wilderRun_length, List.length_drop, htr]
  omega

theorem stochK_length (p : ℕ) (data : List Candle) :
    (stochK p data).length = data.length + 1 - p := by
  simp [stochK]

theorem returnsVals_length : ∀ (pc : ℝ) (l : List Candle),
    (returnsVals pc l).length = l.length
  | _, [] => rfl
  | pc, c :: rest => by
    simp only [returnsVals, List.length_cons]
    rw [returnsVals_length]

theorem MACD_parts (fast slow sig : ℕ) (vals : List ℝ)
    (hf : 0 < fast) (hfs : fast ≤ slow) (hs : 0 < sig)
    (hn : slow + sig ≤ vals.length) :
    (MACD_calculate fast slow sig vals).map (fun r => r.1) = macdLine fast slow vals ∧
    (MACD_calculate fast slow sig vals).map (fun r => r.2.1)
      = List.replicate (sig - 1) (none : Option ℝ)
        ++ (EMA_calculate sig (macdLine fast slow vals)).map some ∧
    ((MACD_calculate fast slow sig vals).map (fun r => r.2.2) =
      List.replicate (sig - 1) (none : Option ℝ)
        ++ (List.zipWith (fun a b => a - b)
            ((macdLine fast slow vals).drop (sig - 1))
            (EMA_calculate sig (macdLine fast slow vals))).map some) ∧
    (MACD_calculate fast slow sig vals).length = vals.length + 1 - slow ∧
    (EMA_calculate sig (macdLine fast slow vals)).length = vals.length + 2 - slow - sig := by
  have hm := macdLine_length fast slow vals hf hfs (by omega)
  have hsig : (EMA_calculate sig (macdLine fast slow vals)).length
      = vals.length + 2 - slow - sig := by
    rw [EMA_calculate_length sig (macdLine fast slow vals) hs (by rw [hm]; omega), hm]
    omega
  have hk : (macdLine fast slow vals).length
      - (EMA_calculate sig (macdLine fast slow vals)).length = sig - 1 := by
    rw [hm, hsig]
    omega
  have hsOptLen : (List.replicate ((macdLine fast slow vals).length
        - (EMA_calculate sig (macdLine fast slow vals)).length) (none : Option ℝ)
      ++ (EMA_calculate sig (macdLine fast slow vals)).map some).length
      = (macdLine fast slow vals).length := by
    simp only [List.length_append, List.length_replicate, List.length_map]
    rw [hm, hsig]
    omega
  have hzipLen : (List.zipWith (fun a b => a - b)
      ((macdLine fast slow vals).drop ((macdLine fast slow vals).length
        - (EMA_calculate sig (macdLine fast slow vals)).length))
      (EMA_calculate sig (macdLine fast slow vals))).length
      = (EMA_calculate sig (macdLine fast slow vals)).length := by
    simp only [List.length_zipWith, List.length_drop]
    rw [hm, hsig]
    omega
  have hhOptLen : (List.replicate ((macdLine fast slow vals).length
        - (EMA_calculate sig (macdLine fast slow vals)).length) (none : Option ℝ)
      ++ (List.zipWith (fun a b => a - b)
          ((macdLine fast slow vals).drop ((macdLine fast slow vals).length
            - (EMA_calculate sig (macdLine fast slow vals)).length))
          (EMA_calculate sig (macdLine fast slow vals))).map some).length
      = (macdLine fast slow vals).length := by
    simp only [List.length_append, List.length_replicate, List.length_map, hzipLen]
    rw [hm, hsig]
    omega
  have hMC : MACD_calculate fast slow sig vals
      = (macdLine fast slow vals).zip
        ((List.replicate ((macdLine fast slow vals).length
            - (EMA_calculate sig (macdLine fast slow vals)).length) (none : Option ℝ)
          ++ (EMA_calculate sig (macdLine fast slow vals)).map some).zip
        (List.replicate ((macdLine fast slow vals).length
            - (EMA_calculate sig (macdLine fast slow vals)).length) (none : Option ℝ)
          ++ (List.zipWith (fun a b => a - b)
              ((macdLine fast slow vals).drop ((macdLine fast slow vals).length
                - (EMA_calculate sig (macdLine fast slow vals)).length))
              (EMA_calculate sig (macdLine fast slow vals))).map some)) := rfl
  have hinnerLen : ((List.replicate ((macdLine fast slow vals).length
        - (EMA_calculate sig (macdLine fast slow vals)).length) (none : Option ℝ)
      ++ (EMA_calculate sig (macdLine fast slow vals)).map some).zip
      (List.replicate ((macdLine fast slow vals).length
          - (EMA_calculate sig (macdLine fast slow vals)).length) (none : Option ℝ)
        ++ (List.zipWith (fun a b => a - b)
            ((macdLine fast slow vals).drop ((macdLine fast slow vals).length
              - (EMA_calculate sig (macdLine fast slow vals)).length))
            (EMA_calculate sig (macdLine fast slow vals))).map some)).length
      = (macdLine fast slow vals).length := by
    rw [List.length_zip, hsOptLen, hhOptLen]
    omega
  refine ⟨?_, ?_, ?_, ?_, hsig⟩
  · rw [hMC]
    exact List.map_fst_zip _ _ (by rw [hinnerLen])
  · have hsnd : (MACD_calculate fast slow sig vals).map (fun r => r.2)
        = (List.replicate ((macdLine fast slow vals).length
            - (EMA_calculate sig (macdLine fast slow vals)).length) (none : Option ℝ)
          ++ (EMA_calculate sig (macdLine fast slow vals)).map some).zip
          (List.replicate ((macdLine fast slow vals).length
              - (EMA_calculate sig (macdLine fast slow vals)).length) (none : Option ℝ)
            ++ (List.zipWith (fun a b => a - b)
                ((macdLine fast slow vals).drop ((macdLine fast slow vals).length
                  - (EMA_calculate sig (macdLine fast slow vals)).length))
                (EMA_calculate sig (macdLine fast slow vals))).map some) := by
      rw [hMC]
      exact List.map_snd_zip _ _ (by rw [hinnerLen])
    have hstep : (MACD_calculate fast slow sig vals).map (fun r => r.2.1)
        = ((MACD_calculate fast slow sig vals).map (fun r => r.2)).map (fun q => q.1) := by
      rw [List.map_map]
      rfl
    rw [hstep, hsnd, List.map_fst_zip _ _ (by rw [hsOptLen, hhOptLen]), hk]
  · have hsnd : (MACD_calculate fast slow sig vals).map (fun r => r.2)
        = (List.replicate ((macdLine fast slow vals).length
            - (EMA_calculate sig (macdLine fast slow vals)).length) (none : Option ℝ)
          ++ (EMA_calculate sig (macdLine fast slow vals)).map some).zip
          (List.replicate ((macdLine fast slow vals).length
              - (EMA_calculate sig (macdLine fast slow vals)).length) (none : Option ℝ)
            ++ (List.zipWith (fun a b => a - b)
                ((macdLine fast slow vals).drop ((macdLine fast slow vals).length
                  - (EMA_calculate sig (macdLine fast slow vals)).length))
                (EMA_calculate sig (macdLine fast slow vals))).map some) := by
      rw [hMC]
      exact List.map_snd_zip _ _ (by rw [hinnerLen])
    have hstep : (MACD_calculate fast slow sig vals).map (fun r => r.2.2)
        = ((MACD_calculate fast slow sig vals).map (fun r => r.2)).map (fun q => q.2) := by
      rw [List.map_map]
      rfl
    rw [hstep, hsnd, List.map_snd_zip _ _ (by rw [hsOptLen, hhOptLen]), hk]
  · rw [hMC, List.length_zip, hinnerLen, hm]
    omega

theorem Stochastic_parts (p sig : ℕ) (data : List Candle) (hs : 0 < sig) :
    (Stochastic_calculate p sig data).map (fun r => r.1) = stochK p data ∧
    (Stochastic_calculate p sig data).map (fun r => r.2)
      = List.replicate ((stochK p data).length - (SMA_calculate sig (stochK p data)).length)
          (none : Option ℝ)
        ++ (SMA_calculate sig (stochK p data)).map some ∧
    (Stochastic_calculate p sig data).length = (stochK p data).length := by
  have hds : (SMA_calculate sig (stochK p data)).length ≤ (stochK p data).length := by
    rw [SMA_calculate_length]
    omega
  have hsOptLen : (List.replicate ((stochK p data).length
        - (SMA_calculate sig (stochK p data)).length) (none : Option ℝ)
      ++ (SMA_calculate sig (stochK p data)).map some).length = (stochK p data).length := by
    simp only [List.length_append, List.length_replicate, List.length_map]
    omega
  have hSC : Stochastic_calculate p sig data
      = (stochK p data).zip
        (List.replicate ((stochK p data).length
            - (SMA_calculate sig (stochK p data)).length) (none : Option ℝ)
          ++ (SMA_calculate sig (stochK p data)).map some) := rfl
  refine ⟨?_, ?_, ?_⟩
  · rw [hSC]
    exact List.map_fst_zip _ _ (by rw [hsOptLen])
  · rw [hSC]
    exact List.map_snd_zip _ _ (by rw [hsOptLen])
  · rw [hSC, List.length_zip, hsOptLen]
    omega


theorem pad_merge (n pad k : ℕ) (vals : List ℝ) (h : pad + k = n - vals.length) :
    List.replicate pad (none : Option ℝ)
      ++ (List.replicate k (none : Option ℝ) ++ vals.map some) = optPad n vals := by
  rw [optPad, ← List.append_assoc, ← List.replicate_add, h]

/-- C5: for every supported indicator, on inputs meeting the indicator's
minimum required length the output series (and each sub-series of MACD,
Bollinger and Stochastic) has exactly the input length, `none` exactly before
the (sub-)series' minimum lookback; shorter inputs give an empty result. -/
theorem indicator_length_invariant (data : List Candle) :
    (∀ p : ℕ, 0 < p →
      (p ≤ data.length → seriesOk data.length (p - 1) (calculateSMA data p)) ∧
      (data.length < p → calculateSMA data p = [])) ∧
    (∀ p : ℕ, 0 < p →
      (p ≤ data.length → seriesOk data.length (p - 1) (calculateEMA data p)) ∧
      (data.length < p → calculateEMA data p = [])) ∧
    (∀ p : ℕ, 0 < p →
      (p + 1 ≤ data.length → seriesOk data.length p (calculateRSI data p)) ∧
      (data.length < p + 1 → calculateRSI data p = [])) ∧
    (∀ fast slow sig : ℕ, 0 < fast → fast ≤ slow → 0 < sig →
      (slow + sig ≤ data.length →
        seriesOk data.length (slow - 1) (calculateMACD data fast slow sig).macd ∧
        seriesOk data.length (slow + sig - 2) (calculateMACD data fast slow sig).signal ∧
        seriesOk data.length (slow + sig - 2) (calculateMACD data fast slow sig).histogram) ∧
      (data.length < slow + sig →
        (calculateMACD data fast slow sig).macd = [] ∧
        (calculateMACD data fast slow sig).signal = [] ∧
        (calculateMACD data fast slow sig).histogram = [])) ∧
    (∀ (p : ℕ) (sd : ℝ), 0 < p →
      (p ≤ data.length →
        seriesOk data.length (p - 1) (calculateBollingerBands data p sd).upper ∧
        seriesOk data.length (p - 1) (calculateBollingerBands data p sd).middle ∧
        seriesOk data.length (p - 1) (calculateBollingerBands data p sd).lower) ∧
      (data.length < p →
        (calculateBollingerBands data p sd).upper = [] ∧
        (calculateBollingerBands data p sd).middle = [] ∧
        (calculateBollingerBands data p sd).lower = [])) ∧
    (∀ p : ℕ, 0 < p →
      (p + 1 ≤ data.length → seriesOk data.length p (calculateATR data p)) ∧
      (data.length < p + 1 → calculateATR data p = [])) ∧
    (∀ p sig : ℕ, 0 < p → 0 < sig →
      (p ≤ data.length →
        seriesOk data.length (p - 1) (calculateStochastic data p sig).k ∧
        (calculateStochastic data p sig).d.length = data.length) ∧
      (p + sig ≤ data.length + 1 →
        seriesOk data.length (p + sig - 2) (calculateStochastic data p sig).d) ∧
      (data.length < p →
        (calculateStochastic data p sig).k = [] ∧
        (calculateStochastic data p sig).d = [])) ∧
    ((2 ≤ data.length → (calculateOBV data).length = data.length) ∧
      (data.length < 2 → calculateOBV data = [])) ∧
    ((2 ≤ data.length → seriesOk data.length 1 (calculateReturns data)) ∧
      (data.length < 2 → calculateReturns data = [])) := by
  have hvl : (data.map (·.close)).length = data.length := List.length_map data _
  refine ⟨?_, ?_, ?_, ?_, ?_, ?_, ?_, ?_, ?_⟩
  · -- SMA
    intro p hp
    constructor
    · intro hpn
      have hlen : (SMA_calculate p (data.map (·.close))).length = data.length + 1 - p := by
        rw [SMA_calculate_length, hvl]
      have hsk := optPad_seriesOk data.length (SMA_calculate p (data.map (·.close)))
        (by rw [hlen]; omega)
      rw [hlen, show data.length - (data.length + 1 - p) = p - 1 from by omega] at hsk
      have hcs : calculateSMA data p
          = optPad data.length (SMA_calculate p (data.map (·.close))) := by
        simp only [calculateSMA]
        rw [if_neg (by omega)]
      rw [hcs]
      exact hsk
    · intro hlt
      simp only [calculateSMA]
      rw [if_pos hlt]
  · -- EMA
    intro p hp
    constructor
    · intro hpn
      have hlen : (EMA_calculate p (data.map (·.close))).length = data.length + 1 - p := by
        rw [EMA_calculate_length p _ hp (by rw [hvl]; omega), hvl]
      have hsk := optPad_seriesOk data.length (EMA_calculate p (data.map (·.close)))
        (by rw [hlen]; omega)
      rw [hlen, show data.length - (data.length + 1 - p) = p - 1 from by omega] at hsk
      have hcs : calculateEMA data p
          = optPad data.length (EMA_calculate p (data.map (·.close))) := by
        simp only [calculateEMA]
        rw [if_neg (by omega)]
      rw [hcs]
      exact hsk
    · intro hlt
      simp only [calculateEMA]
      rw [if_pos hlt]
  · -- RSI
    intro p hp
    constructor
    · intro hpn
      have hlen : (RSI_calculate p (data.map (·.close))).length = data.length - p := by
        rw [RSI_calculate_length p _ hp (by rw [hvl]; omega), hvl]
      have hsk := optPad_seriesOk data.length (RSI_calculate p (data.map (·.close)))
        (by rw [hlen]; omega)
      rw [hlen, show data.length - (data.length - p) = p from by omega] at hsk
      have hcs : calculateRSI data p
          = optPad data.length (RSI_calculate p (data.map (·.close))) := by
        simp only [calculateRSI]
        rw [if_neg (by omega)]
      rw [hcs]
      exact hsk
    · intro hlt
      simp only [calculateRSI]
      rw [if_pos hlt]
  · -- MACD
    intro fast slow sig hf hfs hs
    constructor
    · intro hn
      obtain ⟨h1, h2, h3, hreclen, hsiglen⟩ :=
        MACD_parts fast slow sig (data.map (·.close)) hf hfs hs (by rw [hvl]; omega)
      rw [hvl] at hreclen hsiglen
      have hmlen : (macdLine fast slow (data.map (·.close))).length
          = data.length + 1 - slow := by
        rw [macdLine_length fast slow _ hf hfs (by rw [hvl]; omega), hvl]
      have hzlen : (List.zipWith (fun a b => a - b)
          ((macdLine fast slow (data.map (·.close))).drop (sig - 1))
          (EMA_calculate sig (macdLine fast slow (data.map (·.close))))).length
          = data.length + 2 - slow - sig := by
        simp only [List.length_zipWith, List.length_drop, hmlen, hsiglen]
        omega
      have hmap1len : ((MACD_calculate fast slow sig (data.map (·.close))).map
          (fun r => r.1)).length = data.length + 1 - slow := by
        rw [List.length_map, hreclen]
      have hCM : calculateMACD data fast slow sig
          = ⟨optPad data.length (macdLine fast slow (data.map (·.close))),
             optPad data.length (EMA_calculate sig (macdLine fast slow (data.map (·.close)))),
             optPad data.length (List.zipWith (fun a b => a - b)
               ((macdLine fast slow (data.map (·.close))).drop (sig - 1))
               (EMA_calculate sig (macdLine fast slow (data.map (·.close)))))⟩ := by
        simp only [calculateMACD]
        rw [if_neg (by omega)]
        rw [h1, h2, h3]
        congr 1
        · exact pad_merge data.length _ _ _ (by rw [hmlen, hsiglen]; omega)
        · exact pad_merge data.length _ _ _ (by rw [hmlen, hzlen]; omega)
      rw [hCM]
      refine ⟨?_, ?_, ?_⟩
      · have hsk := optPad_seriesOk data.length (macdLine fast slow (data.map (·.close)))
          (by rw [hmlen]; omega)
        rw [hmlen, show data.length - (data.length + 1 - slow) = slow - 1 from by omega] at hsk
        exact hsk
      · have hsk := optPad_seriesOk data.length
          (EMA_calculate sig (macdLine fast slow (data.map (·.close))))
          (by rw [hsiglen]; omega)
        rw [hsiglen,
          show data.length - (data.length + 2 - slow - sig) = slow + sig - 2 from by omega] at hsk
        exact hsk
      · have hsk := optPad_seriesOk data.length
          (List.zipWith (fun a b => a - b)
            ((macdLine fast slow (data.map (·.close))).drop (sig - 1))
            (EMA_calculate sig (macdLine fast slow (data.map (·.close)))))
          (by rw [hzlen]; omega)
        rw [hzlen,
          show data.length - (data.length + 2 - slow - sig) = slow + sig - 2 from by omega] at hsk
        exact hsk
    · intro hlt
      simp only [calculateMACD]
      rw [if_pos hlt]
      exact ⟨rfl, rfl, rfl⟩
  · -- Bollinger
    intro p sd hp
    constructor
    · intro hpn
      have hbl : (BB_calculate p sd (data.map (·.close))).length = data.length + 1 - p := by
        rw [BB_calculate_length, hvl]
      have hul : ((BB_calculate p sd (data.map (·.close))).map (fun r => r.1)).length
          = data.length + 1 - p := by rw [List.length_map, hbl]
      have hml : ((BB_calculate p sd (data.map (·.close))).map (fun r => r.2.1)).length
          = data.length + 1 - p := by rw [List.length_map, hbl]
      have hll : ((BB_calculate p sd (data.map (·.close))).map (fun r => r.2.2)).length
          = data.length + 1 - p := by rw [List.length_map, hbl]
      have hCB : calculateBollingerBands data p sd
          = ⟨optPad data.length ((BB_calculate p sd (data.map (·.close))).map (fun r => r.1)),
             optPad data.length ((BB_calculate p sd (data.map (·.close))).map (fun r => r.2.1)),
             optPad data.length ((BB_calculate p sd (data.map (·.close))).map (fun r => r.2.2))⟩ := by
        simp only [calculateBollingerBands]
        rw [if_neg (by omega)]
        congr 1
        · simp only [optPad]
          rw [hul, hml]
        · simp only [optPad]
          rw [hul, hll]
      rw [hCB]
      refine ⟨?_, ?_, ?_⟩
      · have hsk := optPad_seriesOk data.length
          ((BB_calculate p sd (data.map (·.close))).map (fun r => r.1)) (by rw [hul]; omega)
        rw [hul, show data.length - (data.length + 1 - p) = p - 1 from by omega] at hsk
        exact hsk
      · have hsk := optPad_seriesOk data.length
          ((BB_calculate p sd (data.map (·.close))).map (fun r => r.2.1)) (by rw [hml]; omega)
        rw [hml, show data.length - (data.length + 1 - p) = p - 1 from by omega] at hsk
        exact hsk
      · have hsk := optPad_seriesOk data.length
          ((BB_calculate p sd (data.map (·.close))).map (fun r => r.2.2)) (by rw [hll]; omega)
        rw [hll, show data.length - (data.length + 1 - p) = p - 1 from by omega] at hsk
        exact hsk
    · intro hlt
      simp only [calculateBollingerBands]
      rw [if_pos hlt]
      exact ⟨rfl, rfl, rfl⟩
  · -- ATR
    intro p hp
    constructor
    · intro hpn
      have hlen : (ATR_calculate p data).length = data.length - p :=
        ATR_calculate_length p data hp hpn
      have hsk := optPad_seriesOk data.length (ATR_calculate p data) (by rw [hlen]; omega)
      rw [hlen, show data.length - (data.length - p) = p from by omega] at hsk
      have hcs : calculateATR data p = optPad data.length (ATR_calculate p data) := by
        simp only [calculateATR]
        rw [if_neg (by omega)]
      rw [hcs]
      exact hsk
    · intro hlt
      simp only [calculateATR]
      rw [if_pos hlt]
  · -- Stochastic
    intro p sig hp hs
    obtain ⟨h1, h2, hreclen⟩ := Stochastic_parts p sig data hs
    have hkl : (stochK p data).length = data.length + 1 - p := stochK_length p data
    have hmap1len : ((Stochastic_calculate p sig data).map (fun r => r.1)).length
        = data.length + 1 - p := by rw [List.length_map, hreclen, hkl]
    refine ⟨?_, ?_, ?_⟩
    · intro hpn
      have hCS : calculateStochastic data p sig
          = ⟨optPad data.length (stochK p data),
             List.replicate (data.length - (data.length + 1 - p)) (none : Option ℝ)
               ++ (Stochastic_calculate p sig data).map (fun r => r.2)⟩ := by
        simp only [calculateStochastic]
        rw [if_neg (by omega)]
        congr 1
        · rw [h1]
          rfl
        · rw [hmap1len]
      rw [hCS]
      constructor
      · have hsk := optPad_seriesOk data.length (stochK p data) (by rw [hkl]; omega)
        rw [hkl, show data.length - (data.length + 1 - p) = p - 1 from by omega] at hsk
        exact hsk
      · simp only [List.length_append, List.length_replicate, List.length_map, hreclen, hkl]
        omega
    · intro hps
      have hdsl : (SMA_calculate sig (stochK p data)).length = data.length + 2 - p - sig := by
        rw [SMA_calculate_length, hkl]
        omega
      have hCSd : (calculateStochastic data p sig).d
          = optPad data.length (SMA_calculate sig (stochK p data)) := by
        simp only [calculateStochastic]
        rw [if_neg (by omega)]
        show List.replicate (data.length
            - ((Stochastic_calculate p sig data).map (fun r => r.1)).length) (none : Option ℝ)
          ++ (Stochastic_calculate p sig data).map (fun r => r.2)
          = optPad data.length (SMA_calculate sig (stochK p data))
        rw [h2, hmap1len]
        exact pad_merge data.length _ _ _ (by rw [hkl, hdsl]; omega)
      rw [hCSd]
      have hsk := optPad_seriesOk data.length (SMA_calculate sig (stochK p data))
        (by rw [hdsl]; omega)
      rw [hdsl,
        show data.length - (data.length + 2 - p - sig) = p + sig - 2 from by omega] at hsk
      exact hsk
    · intro hlt
      simp only [calculateStochastic]
      rw [if_pos hlt]
      exact ⟨rfl, rfl⟩
  · -- OBV
    constructor
    · intro h2
      match data, h2 with
      | c0 :: c1 :: rest, _ =>
        show (0 :: obvLoop c0.close 0 (c1 :: rest)).length = (c0 :: c1 :: rest).length
        simp only [List.length_cons, obvLoop_length]
    · intro hlt
      match data, hlt with
      | [], _ => rfl
      | [_], _ => rfl
  · -- returns
    constructor
    · intro h2
      match data, h2 with
      | c0 :: c1 :: rest, _ =>
        have hrl : (returnsVals c0.close (c1 :: rest)).length = rest.length + 1 := by
          rw [returnsVals_length]
          simp
        have hcr : calculateReturns (c0 :: c1 :: rest)
            = optPad (c0 :: c1 :: rest).length (returnsVals c0.close (c1 :: rest)) := by
          show none :: (returnsVals c0.close (c1 :: rest)).map some
            = optPad (c0 :: c1 :: rest).length (returnsVals c0.close (c1 :: rest))
          rw [optPad, hrl,
            show (c0 :: c1 :: rest).length - (rest.length + 1) = 1 from by simp,
            List.replicate_one, List.singleton_append]
        rw [hcr]
        have hsk := optPad_seriesOk (c0 :: c1 :: rest).length
          (returnsVals c0.close (c1 :: rest)) (by rw [hrl]; simp)
        rw [hrl, show (c0 :: c1 :: rest).length - (rest.length + 1) = 1 from by simp] at hsk
        exact hsk
    · intro hlt
      match data, hlt with
      | [], _ => rfl
      | [_], _ => rfl

/-- Forty equally spaced candles for the indicator witness. -/
def exInd : List Candle := List.map (fun i => mkC (Int.ofNat i)) (List.range 40)

/-- Witness for C5 at the default periods on a 40-candle input. -/
theorem indicator_length_invariant_witness :
    ((0 < 20 ∧ 20 ≤ exInd.length) ∧ seriesOk exInd.length 19 (calculateSMA exInd 20)) ∧
    ((0 < 14 ∧ 14 + 1 ≤ exInd.length) ∧ seriesOk exInd.length 14 (calculateRSI exInd 14)) ∧
    ((0 < 12 ∧ 12 ≤ 26 ∧ 0 < 9 ∧ 26 + 9 ≤ exInd.length) ∧
      seriesOk exInd.length 25 (calculateMACD exInd 12 26 9).macd ∧
      seriesOk exInd.length 33 (calculateMACD exInd 12 26 9).signal) ∧
    ((0 < 14 ∧ 0 < 3 ∧ 14 ≤ exInd.length ∧ 14 + 3 ≤ exInd.length + 1) ∧
      seriesOk exInd.length 13 (calculateStochastic exInd 14 3).k ∧
      seriesOk exInd.length 15 (calculateStochastic exInd 14 3).d) ∧
    (2 ≤ exInd.length ∧ (calculateOBV exInd).length = exInd.length) ∧
    seriesOk exInd.length 1 (calculateReturns exInd) := by
  have hlen : exInd.length = 40 := by
    rw [exInd, List.length_map, List.length_range]
  have h := indicator_length_invariant exInd
  refine ⟨⟨⟨by norm_num, by rw [hlen]; norm_num⟩, ?_⟩,
    ⟨⟨by norm_num, by rw [hlen]; norm_num⟩, ?_⟩,
    ⟨⟨by norm_num, by norm_num, by norm_num, by rw [hlen]; norm_num⟩, ?_, ?_⟩,
    ⟨⟨by norm_num, by norm_num, by rw [hlen]; norm_num, by rw [hlen]; norm_num⟩, ?_, ?_⟩,
    ⟨by rw [hlen]; norm_num, ?_⟩, ?_⟩
  · exact (h.1 20 (by norm_num)).1 (by rw [hlen]; norm_num)
  · exact (h.2.2.1 14 (by norm_num)).1 (by rw [hlen]; norm_num)
  · exact ((h.2.2.2.1 12 26 9 (by norm_num) (by norm_num) (by norm_num)).1
      (by rw [hlen]; norm_num)).1
  · exact ((h.2.2.2.1 12 26 9 (by norm_num) (by norm_num) (by norm_num)).1
      (by rw [hlen]; norm_num)).2.1
  · exact ((h.2.2.2.2.2.2.1 14 3 (by norm_num) (by norm_num)).1
      (by rw [hlen]; norm_num)).1
  · exact (h.2.2.2.2.2.2.1 14 3 (by norm_num) (by norm_num)).2.1
      (by rw [hlen]; norm_num)
  · exact h.2.2.2.2.2.2.2.1.1 (by rw [hlen]; norm_num)
  · exact h.2.2.2.2.2.2.2.2.1 (by rw [hlen]; norm_num)

/-- The parsed `data` field of a request body: a JS array of candle records,
a truthy non-array value, or a falsy value (`null`, `0`, the empty string,
`false`); `!data || !Array.isArray(data)` rejects everything except an
array (also the absent field, modelled by `none` on the `Option` outside). -/
inductive JsData where
  | arr (l : List Candle)
  | truthyNonArray
  | falsy

/-- Recognized fields of the process-market-data `options` object; `none`
models an absent field.  `alignTimestamps !== false` style checks make every
value except `false` enable a stage; `normalize === true` requires `true`. -/
structure ProcessOptions where
  alignTimestamps : Option Bool := none
  handleMissingValues : Option Bool := none
  removeOutliers : Option Bool := none
  outlierThreshold : Option ℝ := none
  normalize : Option Bool := none

/-- Response of the process handler after JSON parsing and the POST check:
either the 400 validation error with its `error` and `required` strings, or
the 200 payload. -/
inductive ProcessResponse where
  | validationError (statusCode : ℕ) (error required : String)
  | ok (originalCount processedCount : ℕ) (processingSteps : List String)
      (processedData : List Candle)

open Classical in
/-- The process-market-data handler body: validate `data`, then thread the
working array through the four optional stages in fixed order, recording the
steps that ran.  `options.outlierThreshold || 3` treats the falsy 0 as
absent. -/
noncomputable def processMarketDataHandler (dataParam : Option JsData)
    (opts : ProcessOptions) : ProcessResponse :=
  match dataParam with
  | some (JsData.arr l) =>
    let d1 := if opts.alignTimestamps ≠ some false then alignTimestamps l else l
    let s1 : List String :=
      if opts.alignTimestamps ≠ some false then [("alignTimestamps")] else []
    let d2 := if opts.handleMissingValues ≠ some false then handleMissingValues d1 else d1
    let s2 : List String :=
      if opts.handleMissingValues ≠ some false then [("handleMissingValues")] else []
    let threshold : ℝ :=
      match opts.outlierThreshold with
      | some t => if t = 0 then 3 else t
      | none => 3
    let d3 := if opts.removeOutliers ≠ some false then removeOutliers d2 threshold else d2
    let s3 : List String :=
      if opts.removeOutliers ≠ some false then [("removeOutliers")] else []
    let d4 := if opts.normalize = some true then normalizeData d3 else d3
    let s4 : List String := if opts.normalize = some true then [("normalize")] else []
    ProcessResponse.ok l.length d4.length (s1 ++ s2 ++ s3 ++ s4) d4
  | _ =>
    ProcessResponse.validationError 400 ("Missing or invalid data parameter")
      ("Array of OHLCV data objects")

/-- Recognized fields of the calculate-indicators `parameters` object. -/
structure IndicatorParameters where
  smaPeriod : Option ℕ := none
  emaPeriod : Option ℕ := none
  rsiPeriod : Option ℕ := none
  macdFastPeriod : Option ℕ := none
  macdSlowPeriod : Option ℕ := none
  macdSignalPeriod : Option ℕ := none
  bollingerPeriod : Option ℕ := none
  bollingerStdDev : Option ℝ := none
  atrPeriod : Option ℕ := none
  stochasticPeriod : Option ℕ := none
  stochasticSignalPeriod : Option ℕ := none
  combineWithData : Option Bool := none

/-- Defaulting `parameters.x || d` for an optional period (JS treats 0 as falsy). -/
def orDefaultNat (x : Option ℕ) (d : ℕ) : ℕ :=
  match x with
  | some v => if v = 0 then d else v
  | none => d

open Classical in
/-- Defaulting `parameters.x || d` for an optional real parameter. -/
noncomputable def orDefaultReal (x : Option ℝ) (d : ℝ) : ℝ :=
  match x with
  | some v => if v = 0 then d else v
  | none => d

/-- The `result.indicators` object: one optional entry per supported
indicator, set by the dispatch loop. -/
structure IndicatorsOut where
  sma : Option (List (Option ℝ)) := none
  ema : Option (List (Option ℝ)) := none
  rsi : Option (List (Option ℝ)) := none
  macd : Option MACDResult := none
  bollinger : Option BollingerResult := none
  atr : Option (List (Option ℝ)) := none
  stochastic : Option StochasticResult := none
  obv : Option (List ℝ) := none
  returns : Option (List (Option ℝ)) := none

/-- One iteration of the `for (const indicator of indicators)` dispatch:
lower-case the name, compute the matching indicator with its defaulted
parameters, ignore unknown names (the `console.warn` branch). -/
noncomputable def applyIndicator (data : List Candle) (params : IndicatorParameters)
    (acc : IndicatorsOut) (name : String) : IndicatorsOut :=
  if name.toLower = "sma" then
    { acc with sma := some (calculateSMA data (orDefaultNat params.smaPeriod 20)) }
  else if name.toLower = "ema" then
    { acc with ema := some (calculateEMA data (orDefaultNat params.emaPeriod 20)) }
  else if name.toLower = "rsi" then
    { acc with rsi := some (calculateRSI data (orDefaultNat params.rsiPeriod 14)) }
  else if name.toLower = "macd" then
    { acc with macd := some (calculateMACD data (orDefaultNat params.macdFastPeriod 12)
        (orDefaultNat params.macdSlowPeriod 26) (orDefaultNat params.macdSignalPeriod 9)) }
  else if name.toLower = "bollinger" then
    { acc with bollinger := some (calculateBollingerBands data
        (orDefaultNat params.bollingerPeriod 20) (orDefaultReal params.bollingerStdDev 2)) }
  else if name.toLower = "atr" then
    { acc with atr := some (calculateATR data (orDefaultNat params.atrPeriod 14)) }
  else if name.toLower = "stochastic" then
    { acc with stochastic := some (calculateStochastic data
        (orDefaultNat params.stochasticPeriod 14)
        (orDefaultNat params.stochasticSignalPeriod 3)) }
  else if name.toLower = "obv" then
    { acc with obv := some (calculateOBV data) }
  else if name.toLower = "returns" then
    { acc with returns := some (calculateReturns data) }
  else acc

/-- The extra fields merged onto candle `i` by `combineWithData`: one
`(name, value)` pair per computed series, sub-series namespaced as
`indicator_sub`; `none` stands for JSON `null`/`undefined` at that index.
Object key order is abstracted to a fixed field order. -/
noncomputable def combinedEntries (ind : IndicatorsOut) (i : ℕ) :
    List (String × Option ℝ) :=
  (match ind.sma with | some s => [(("sma"), s.getD i none)] | none => []) ++
  (match ind.ema with | some s => [(("ema"), s.getD i none)] | none => []) ++
  (match ind.rsi with | some s => [(("rsi"), s.getD i none)] | none => []) ++
  (match ind.macd with
    | some r => [(("macd_macd"), r.macd.getD i none), (("macd_signal"), r.signal.getD i none),
        (("macd_histogram"), r.histogram.getD i none)]
    | none => []) ++
  (match ind.bollinger with
    | some r => [(("bollinger_upper"), r.upper.getD i none),
        (("bollinger_middle"), r.middle.getD i none), (("bollinger_lower"), r.lower.getD i none)]
    | none => []) ++
  (match ind.atr with | some s => [(("atr"), s.getD i none)] | none => []) ++
  (match ind.stochastic with
    | some r => [(("stochastic_k"), r.k.getD i none), (("stochastic_d"), r.d.getD i none)]
    | none => []) ++
  (match ind.obv with | some s => [(("obv"), s.get? i)] | none => []) ++
  (match ind.returns with | some s => [(("returns"), s.getD i none)] | none => [])

/-- Response of the calculate-indicators handler after JSON parsing. -/
inductive CalcResponse where
  | validationError (statusCode : ℕ) (error required : String)
  | ok (originalData : List Candle) (indicators : IndicatorsOut)
      (combinedData : Option (List (Candle × List (String × Option ℝ))))

/-- The calculate-indicators handler body: validate `data`, run the dispatch
loop over the requested names (default `[sma, ema, rsi]`), and optionally
merge the indicator values back onto each candle. -/
noncomputable def calculateIndicatorsHandler (dataParam : Option JsData)
    (indicators : Option (List String)) (params : IndicatorParameters) : CalcResponse :=
  match dataParam with
  | some (JsData.arr l) =>
    let names := indicators.getD [("sma"), ("ema"), ("rsi")]
    let ind := names.foldl (applyIndicator l params) {}
    let combined :=
      if params.combineWithData = some true then
        some ((List.range l.length).map (fun i => (l.getD i default, combinedEntries ind i)))
      else none
    CalcResponse.ok l ind combined
  | _ =>
    CalcResponse.validationError 400 ("Missing or invalid data parameter")
      ("Array of OHLCV data objects")

/-- C10: whenever the `data` parameter is missing or not an array, both the
process operation and the calculateIndicators operation return the 400
validation error naming the expected shape, and no processing result is
produced. -/
theorem handlers_validation_error (dataParam : Option JsData) (opts : ProcessOptions)
    (indicators : Option (List String)) (params : IndicatorParameters)
    (h : ∀ l, dataParam ≠ some (JsData.arr l)) :
    processMarketDataHandler dataParam opts
      = ProcessResponse.validationError 400 ("Missing or invalid data parameter")
          ("Array of OHLCV data objects") ∧
    calculateIndicatorsHandler dataParam indicators params
      = CalcResponse.validationError 400 ("Missing or invalid data parameter")
          ("Array of OHLCV data objects") := by
  match dataParam with
  | none => exact ⟨rfl, rfl⟩
  | some JsData.truthyNonArray => exact ⟨rfl, rfl⟩
  | some JsData.falsy => exact ⟨rfl, rfl⟩
  | some (JsData.arr l) => exact absurd rfl (h l)

/-- Witness for C10 on an absent `data` parameter. -/
theorem handlers_validation_error_witness :
    (∀ l, (none : Option JsData) ≠ some (JsData.arr l)) ∧
    processMarketDataHandler none {}
      = ProcessResponse.validationError 400 ("Missing or invalid data parameter")
          ("Array of OHLCV data objects") ∧
    calculateIndicatorsHandler none none {}
      = CalcResponse.validationError 400 ("Missing or invalid data parameter")
          ("Array of OHLCV data objects") :=
  ⟨fun _ h => Option.noConfusion h,
    (handlers_validation_error none {} none {} (fun _ h => Option.noConfusion h)).1,
    (handlers_validation_error none {} none {} (fun _ h => Option.noConfusion h)).2⟩

end MarketData
